import Mathlib

/-!
Verification development for the link-resolution and media-normalization
pipeline of nonebot-plugin-parser, covering the two platform resolvers in
`parsers/douyin/__init__.py` and `parsers/xiaohongshu.py`.

The embedding models text as `List Char`, JSON payloads as a mutual
inductive `JValue` (with a `undef` constructor for the JavaScript literal
`undefined` appearing in raw Xiaohongshu state blobs), fallible code as
`Except`, and the concurrent image-conversion stage as a list of
index-tagged outcomes quantified over arbitrary completion orders.
-/

namespace Npp

/-! ## Character and substring utilities -/
/-- Whitespace test matching both Python's `str.strip` default set and the
JSON whitespace characters accepted by `json.loads`. -/
def wsB (c : Char) : Bool :=
  c = ' ' || c = '\n' || c = '\t' || c = '\r'

/-- Drop leading JSON whitespace. -/
def skipWs (s : List Char) : List Char := s.dropWhile wsB

/-- Python `str.strip()`: drop whitespace at both ends. -/
def trimChars (s : List Char) : List Char :=
  ((s.dropWhile wsB).reverse.dropWhile wsB).reverse

/-- Boolean substring test: `p` occurs in `s` at some offset. -/
def containsSub (s p : List Char) : Bool :=
  (List.range (s.length + 1)).any fun n => p.isPrefixOf (s.drop n)

/-! ## JSON value model

`json.loads` output and msgspec-convertible payloads are modelled by the
mutual inductive `JValue`/`JList`/`JFields`.  The `undef` constructor
stands for the JavaScript literal `undefined`, which appears in raw
Xiaohongshu `window.__INITIAL_STATE__` blobs; the plain-JSON parser below
never produces it. -/
mutual

inductive JValue : Type where
  | null : JValue
  | undef : JValue
  | bool : Bool → JValue
  | num : Int → JValue
  | str : List Char → JValue
  | arr : JList → JValue
  | obj : JFields → JValue

inductive JList : Type where
  | nil : JList
  | cons : JValue → JList → JList

inductive JFields : Type where
  | fnil : JFields
  | fcons : List Char → JValue → JFields → JFields

end

/-- Lookup of a key among JSON object fields (first occurrence wins, as in
a Python dict built from JSON, where keys are unique). -/
def JFields.lookupKey (k : List Char) : JFields → Option JValue
  | .fnil => none
  | .fcons k' v tl => if k' = k then some v else JFields.lookupKey k tl

/-- Python truthiness of a decoded JSON value (`if value:`). -/
def pyTruthy : JValue → Bool
  | .null => false
  | .undef => false
  | .bool b => b
  | .num n => n ≠ 0
  | .str s => s ≠ []
  | .arr .nil => false
  | .arr (.cons _ _) => true
  | .obj .fnil => false
  | .obj (.fcons _ _ _) => true

mutual

/-- Read JavaScript `undefined` as JSON `null`, recursively. -/
def jsToNull : JValue → JValue
  | .null => .null
  | .undef => .null
  | .bool b => .bool b
  | .num n => .num n
  | .str s => .str s
  | .arr xs => .arr (jsToNullList xs)
  | .obj fs => .obj (jsToNullFields fs)

def jsToNullList : JList → JList
  | .nil => .nil
  | .cons v tl => .cons (jsToNull v) (jsToNullList tl)

def jsToNullFields : JFields → JFields
  | .fnil => .fnil
  | .fcons k v tl => .fcons k (jsToNull v) (jsToNullFields tl)

end

mutual

/-- A value free of the `undefined` literal (plain JSON). -/
def undefFree : JValue → Bool
  | .null => true
  | .undef => false
  | .bool _ => true
  | .num _ => true
  | .str _ => true
  | .arr xs => undefFreeList xs
  | .obj fs => undefFreeFields fs

def undefFreeList : JList → Bool
  | .nil => true
  | .cons v tl => undefFree v && undefFreeList tl

def undefFreeFields : JFields → Bool
  | .fnil => true
  | .fcons _ v tl => undefFree v && undefFreeFields tl

end

/-! ## The `undefined` → `null` textual replacement

`XiaoHongShuParser._extract_initial_state_json` runs
`matched.group(1).replace("undefined", "null")` before `json.loads`.
`fixU` embeds Python's `str.replace`: left-to-right, non-overlapping,
resuming after each replacement. -/
/-- The replaced substring, `"undefined"`. -/
def patU : List Char := ['u', 'n', 'd', 'e', 'f', 'i', 'n', 'e', 'd']

/-- The replacement text, `"null"`. -/
def nullChars : List Char := ['n', 'u', 'l', 'l']

/-- Python `s.replace("undefined", "null")` on character lists. -/
def fixU : List Char → List Char
  | 'u' :: 'n' :: 'd' :: 'e' :: 'f' :: 'i' :: 'n' :: 'e' :: 'd' :: cs =>
      'n' :: 'u' :: 'l' :: 'l' :: fixU cs
  | c :: cs => c :: fixU cs
  | [] => []

/-- `rest` does not begin with a character of `"undefined"`; used to rule out
replacements spanning a token boundary. -/
def headSafe (rest : List Char) : Prop :=
  ∀ hd tl, rest = hd :: tl → hd ∉ patU

/-! ## Serialization of JSON-with-undefined values

To state the behaviour of the replace-then-decode pipeline over all
well-formed payloads, values are rendered back to text by a canonical
serializer (compact form, no whitespace, escape-free strings). -/
/-- The `{` character (written by code point to keep it out of string
literals). -/
def lbrace : Char := Char.ofNat 123

/-- The `}` character. -/
def rbrace : Char := Char.ofNat 125

/-- One decimal digit character. -/
def digitChar (d : Nat) : Char :=
  if d = 0 then '0' else if d = 1 then '1' else if d = 2 then '2'
  else if d = 3 then '3' else if d = 4 then '4' else if d = 5 then '5'
  else if d = 6 then '6' else if d = 7 then '7' else if d = 8 then '8'
  else '9'

/-- Decimal rendering of a natural number, with enough fuel to terminate
structurally (so that it also evaluates inside the kernel). -/
def serNatAux : Nat → Nat → List Char
  | 0, _ => []
  | fuel + 1, n =>
    if n < 10 then [digitChar n] else serNatAux fuel (n / 10) ++ [digitChar (n % 10)]

def serNat (n : Nat) : List Char := serNatAux (n + 1) n

def serInt (n : Int) : List Char :=
  if n < 0 then '-' :: serNat n.natAbs else serNat n.toNat

mutual

/-- Canonical rendering of a JSON-with-undefined value. -/
def ser : JValue → List Char
  | .null => ['n', 'u', 'l', 'l']
  | .undef => patU
  | .bool true => ['t', 'r', 'u', 'e']
  | .bool false => ['f', 'a', 'l', 's', 'e']
  | .num n => serInt n
  | .str s => '"' :: (s ++ ['"'])
  | .arr xs => '[' :: serItems xs
  | .obj fs => lbrace :: serFields fs

def serItems : JList → List Char
  | .nil => [']']
  | .cons v .nil => ser v ++ [']']
  | .cons v (.cons w tl) => ser v ++ ',' :: serItems (.cons w tl)

def serFields : JFields → List Char
  | .fnil => [rbrace]
  | .fcons k v .fnil => '"' :: (k ++ '"' :: ':' :: (ser v ++ [rbrace]))
  | .fcons k v (.fcons k2 w tl) =>
      '"' :: (k ++ '"' :: ':' :: (ser v ++ ',' :: serFields (.fcons k2 w tl)))

end

/-- A string literal safe for both the escape-free serializer and the
`undefined` replacement: no quote, no backslash, no occurrence of
`"undefined"`. -/
def strClean (s : List Char) : Bool :=
  !s.contains '"' && !s.contains '\\' && !containsSub s patU

mutual

/-- Every string literal (values and object keys) of the payload is clean. -/
def cleanV : JValue → Bool
  | .null | .undef | .bool _ | .num _ => true
  | .str s => strClean s
  | .arr xs => cleanL xs
  | .obj fs => cleanF fs

def cleanL : JList → Bool
  | .nil => true
  | .cons v tl => cleanV v && cleanL tl

def cleanF : JFields → Bool
  | .fnil => true
  | .fcons k v tl => strClean k && cleanV v && cleanF tl

end

/-! ## A JSON parser modelling `json.loads`

The parser covers the fragment of JSON produced by the pipeline's payloads:
integral numbers and escape-free strings (a string body containing a
backslash is rejected rather than mis-parsed).  It is fuel-indexed so that
it is structurally recursive and evaluates inside the kernel. -/
def parseStrBody : List Char → Option (List Char × List Char)
  | [] => none
  | c :: cs =>
    if c = '"' then some ([], cs)
    else if c = '\\' then none
    else (parseStrBody cs).map fun p => (c :: p.1, p.2)

/-- Decimal value of a digit string. -/
def natOfDigits (ds : List Char) : Nat :=
  ds.foldl (fun a c => 10 * a + (c.toNat - 48)) 0

def parseDigits (s : List Char) : Option (Nat × List Char) :=
  let ds := s.takeWhile Char.isDigit
  if ds.isEmpty then none
  else some (natOfDigits ds, s.dropWhile Char.isDigit)

mutual

def parseVal : Nat → List Char → Option (JValue × List Char)
  | 0, _ => none
  | n + 1, s =>
    match skipWs s with
    | '"' :: r => (parseStrBody r).map fun p => (.str p.1, p.2)
    | '[' :: r => parseArrTail n r
    | 'n' :: 'u' :: 'l' :: 'l' :: r => some (.null, r)
    | 't' :: 'r' :: 'u' :: 'e' :: r => some (.bool true, r)
    | 'f' :: 'a' :: 'l' :: 's' :: 'e' :: r => some (.bool false, r)
    | '-' :: r => (parseDigits r).map fun p => (.num (-(p.1 : Int)), p.2)
    | c :: r =>
      if c.isDigit then (parseDigits (c :: r)).map fun p => (.num (p.1 : Int), p.2)
      else if c = lbrace then parseObjTail n r
      else none
    | [] => none

def parseArrTail : Nat → List Char → Option (JValue × List Char)
  | 0, _ => none
  | n + 1, r =>
    match skipWs r with
    | c :: r2 =>
      if c = ']' then some (.arr .nil, r2)
      else (parseItems n (c :: r2)).map fun p => (.arr p.1, p.2)
    | [] => none

def parseObjTail : Nat → List Char → Option (JValue × List Char)
  | 0, _ => none
  | n + 1, r =>
    match skipWs r with
    | c2 :: r3 =>
      if c2 = rbrace then some (.obj .fnil, r3)
      else (parseFields n (c2 :: r3)).map fun p => (.obj p.1, p.2)
    | [] => none

def parseItems : Nat → List Char → Option (JList × List Char)
  | 0, _ => none
  | n + 1, s =>
    match parseVal n s with
    | none => none
    | some (v, r) => parseItemsSep n v r

def parseItemsSep : Nat → JValue → List Char → Option (JList × List Char)
  | 0, _, _ => none
  | n + 1, v, r =>
    match skipWs r with
    | c :: r2 =>
      if c = ',' then
        match parseItems n r2 with
        | none => none
        | some (vs, r3) => some (.cons v vs, r3)
      else if c = ']' then some (.cons v .nil, r2)
      else none
    | [] => none

def parseFields : Nat → List Char → Option (JFields × List Char)
  | 0, _ => none
  | n + 1, s =>
    match skipWs s with
    | '"' :: r =>
      (match parseStrBody r with
       | none => none
       | some (k, r2) => parseFieldsColon n k r2)
    | _ => none

def parseFieldsColon : Nat → List Char → List Char → Option (JFields × List Char)
  | 0, _, _ => none
  | n + 1, k, r2 =>
    match skipWs r2 with
    | ':' :: r3 =>
      (match parseVal n r3 with
       | none => none
       | some (v, r4) => parseFieldsSep n k v r4)
    | _ => none

def parseFieldsSep : Nat → List Char → JValue → List Char → Option (JFields × List Char)
  | 0, _, _, _ => none
  | n + 1, k, v, r4 =>
    match skipWs r4 with
    | c3 :: r5 =>
      if c3 = ',' then
        match parseFields n r5 with
        | none => none
        | some (fs, r6) => some (.fcons k v fs, r6)
      else if c3 = rbrace then some (.fcons k v .fnil, r5)
      else none
    | [] => none

end

/-- Model of `json.loads`: the whole input must be consumed (up to trailing
whitespace).  The fuel `3 * length + 3` is a modelling artifact of the
structural parser; it exceeds the fuel bound proved for every serialized
payload. -/
def parseJson (s : List Char) : Option JValue :=
  match parseVal (3 * s.length + 3) s with
  | some (v, r) => if (skipWs r).isEmpty then some v else none
  | none => none

/-- `rest` does not begin with a decimal digit; keeps a serialized number
from running into its continuation. -/
def noDigitHead (rest : List Char) : Prop :=
  ∀ hd tl, rest = hd :: tl → hd.isDigit = false

/-! Fuel bounds sufficient for the parser. -/
mutual

def fuelV : JValue → Nat
  | .null | .undef | .bool _ | .num _ | .str _ => 1
  | .arr xs => 2 + fuelL xs
  | .obj fs => 2 + fuelF fs

def fuelL : JList → Nat
  | .nil => 0
  | .cons v tl => 2 + max (fuelV v) (fuelL tl)

def fuelF : JFields → Nat
  | .fnil => 0
  | .fcons _ v tl => 3 + max (fuelV v) (fuelF tl)

end

/-- What follows the first element inside a serialized array. -/
def serSep : JList → List Char
  | .nil => [']']
  | .cons w tl => ',' :: serItems (.cons w tl)

/-- What follows the first member inside a serialized object. -/
def serFSep : JFields → List Char
  | .fnil => [rbrace]
  | .fcons k2 w tl => ',' :: serFields (.fcons k2 w tl)

/-! ## Marker extraction

`DouyinParser.parse_video` searches the fetched body with the regex
`window\._ROUTER_DATA\s*=\s*(.*?)</script>` under `re.DOTALL`;
`XiaoHongShuParser._extract_initial_state_json` searches with
`window\.__INITIAL_STATE__=(.*?)</script>` without `DOTALL` (so the lazy
group cannot cross a newline).  Both are embedded as a leftmost scan with a
per-position matcher. -/
def scriptClose : List Char := "</script>".toList

def routerMarker : List Char := "window._ROUTER_DATA".toList

def xhsMarker : List Char := "window.__INITIAL_STATE__".toList

/-- Lazy capture under DOTALL: everything (newlines included) up to the
first `</script>`; no match when no `</script>` follows. -/
def captureUntilClose : List Char → Option (List Char)
  | [] => none
  | c :: cs =>
    if scriptClose.isPrefixOf (c :: cs) then some []
    else (captureUntilClose cs).map (c :: ·)

/-- Lazy capture without DOTALL: as above but `.` cannot match a newline. -/
def captureLine : List Char → Option (List Char)
  | [] => none
  | c :: cs =>
    if scriptClose.isPrefixOf (c :: cs) then some []
    else if c = '\n' then none
    else (captureLine cs).map (c :: ·)

/-- Match of the douyin pattern anchored at the start of `s` (`\s` is
modelled by `wsB`). -/
def douyinAt (s : List Char) : Option (List Char) :=
  if routerMarker.isPrefixOf s then
    match (s.drop routerMarker.length).dropWhile wsB with
    | '=' :: r2 => captureUntilClose (r2.dropWhile wsB)
    | _ => none
  else none

/-- `re.search`: leftmost position at which the whole pattern matches. -/
def douyinSearch : List Char → Option (List Char)
  | [] => none
  | s@(_ :: t) =>
    match douyinAt s with
    | some g => some g
    | none => douyinSearch t

/-- Match of the xiaohongshu pattern anchored at the start of `s`. -/
def xhsAt (s : List Char) : Option (List Char) :=
  if xhsMarker.isPrefixOf s then
    match s.drop xhsMarker.length with
    | '=' :: r2 => captureLine r2
    | _ => none
  else none

def xhsSearch : List Char → Option (List Char)
  | [] => none
  | s@(_ :: t) =>
    match xhsAt s with
    | some g => some g
    | none => xhsSearch t

/-- Error kinds: `parse` is a `ParseException` (the only kind the fallback
chains catch); `decode` stands for any other exception escaping a strategy
(msgspec validation errors, `json.JSONDecodeError`, `KeyError`, ...). -/
inductive Err where
  | parse (msg : String)
  | decode (msg : String)
deriving DecidableEq

/-- The marker-extraction stage of `DouyinParser.parse_video` (lines
153-164): raises the marker `ParseException` when the pattern does not
match or the capture is empty, else strips the capture. -/
def douyinExtract (text : List Char) : Except Err (List Char) :=
  match douyinSearch text with
  | none => .error (.parse "can't find _ROUTER_DATA in html")
  | some g =>
    if g.isEmpty then .error (.parse "can't find _ROUTER_DATA in html")
    else .ok (trimChars g)

/-- `XiaoHongShuParser._extract_initial_state_json` (lines 316-323): search
the marker, replace `undefined` by `null`, `json.loads` the capture.  The
failure of `json.loads` is a `JSONDecodeError`, not a `ParseException`. -/
def _extract_initial_state_json (html : List Char) : Except Err JValue :=
  match xhsSearch html with
  | none => .error (.parse "小红书分享链接失效或内容已删除")
  | some g =>
    match parseJson (fixU g) with
    | some v => .ok v
    | none => .error (.decode "json.loads: invalid JSON")

/-! ## The media normalization stage

The image branches of `parse_video`, `parse_slides`, `parse_explore` and
`parse_discovery` all run the identical block: spawn one
`_convert_webp_to_jpg(url, i)` task per URL, `asyncio.gather` the
index-tagged outcomes, sort by index, then build `image_sources` taking the
JPEG bytes where the outcome is truthy and the original URL otherwise.
Completion-order independence is modelled by quantifying over an arbitrary
permutation of the index-tagged outcomes. -/
/-- An entry of the `image_sources` list: converted JPEG bytes or the
original URL fallback. -/
inductive ImageSource where
  | jpg (data : List Nat)
  | url (u : String)
deriving DecidableEq

/-- `results.sort(key=lambda x: x[0])`. -/
def sortByIdx (results : List (Nat × Option (List Nat))) :
    List (Nat × Option (List Nat)) :=
  List.insertionSort (fun p q => p.1 ≤ q.1) results

/-- One loop iteration: `if jpg_data: append(jpg_data) else:
append(image_urls[idx])` — `None` and empty bytes are both falsy. -/
def pickSource (image_urls : List String) : Nat × Option (List Nat) → ImageSource
  | (idx, some d) => if d.isEmpty then .url (image_urls.getD idx "") else .jpg d
  | (idx, none) => .url (image_urls.getD idx "")

def buildImageSources (image_urls : List String)
    (results : List (Nat × Option (List Nat))) : List ImageSource :=
  (sortByIdx results).map (pickSource image_urls)

/-- The index-tagged outcomes as `asyncio.gather` hands them back, one per
input URL: `conv i` is the conversion outcome for index `i`. -/
def indexedResults (image_urls : List String) (conv : Nat → Option (List Nat)) :
    List (Nat × Option (List Nat)) :=
  (List.range image_urls.length).map fun i => (i, conv i)

/-- A media item of a parsed result. -/
inductive Content where
  | image (src : ImageSource)
  | video (url : JValue) (cover : Option String) (duration : Int)
  | dynamic (url : String)

/-- `create_image_contents`: every source is bytes or a URL, and each
becomes one image content in order. -/
def create_image_contents (image_sources : List ImageSource) : List Content :=
  image_sources.map .image

instance : IsTotal (Nat × Option (List Nat)) (fun p q => p.1 ≤ q.1) :=
  ⟨fun a b => Nat.le_total a.1 b.1⟩

instance : IsTrans (Nat × Option (List Nat)) (fun p q => p.1 ≤ q.1) :=
  ⟨fun _ _ _ h1 h2 => le_trans h1 h2⟩

/-! ## The douyin resolver -/
/-- An HTTP response as `parse_video` inspects it. -/
structure HttpResponse where
  status : Nat
  text : List Char

/-- A parsed author (`create_author(nickname, avatar_url)`). -/
structure Author where
  name : String
  avatar : Option String

/-- The canonical result value assembled by `self.result(...)`. -/
structure ParsedResult where
  title : String
  text : Option String
  author : Author
  contents : List Content
  timestamp : Option Int

/-- Modelled from the spec: the duration carried by the video descriptor of
the `RouterData` schema (module `parsers/douyin/video.py`, not under
`src/`). -/
structure DouyinVideo where
  duration : Int

/-- Modelled from the spec: the author object of the `RouterData` schema
(module `parsers/douyin/video.py`, not under `src/`). -/
structure DouyinAuthor where
  nickname : String

/-- Modelled from the spec: the `video_data` value extracted from the
`RouterData` schema (module `parsers/douyin/video.py`, not under `src/`);
only the attributes that `parse_video` reads are modelled, with the
spec-mandated defaults (image list empty, video absent). -/
structure DouyinVideoData where
  image_urls : List String
  video_url : Option String
  cover_url : Option String
  video : Option DouyinVideo
  author : DouyinAuthor
  avatar_url : Option String
  desc : String
  create_time : Int

/-- The content assembly of `parse_video` (lines 165-198): the image branch
runs when `image_urls` is truthy (non-empty); otherwise the video branch
runs when `video_url` is truthy (a non-empty string). -/
def douyinVideoContents (vd : DouyinVideoData)
    (results : List (Nat × Option (List Nat))) : List Content :=
  if vd.image_urls ≠ [] then
    create_image_contents (buildImageSources vd.image_urls results)
  else
    match vd.video_url with
    | some u =>
      if u ≠ "" then
        [Content.video (.str u.toList) vd.cover_url
          (match vd.video with
           | some x => x.duration
           | none => 0)]
      else []
    | none => []

/-- Modelled from the spec: the msgspec `RouterData` schema lives in the
repository module `parsers/douyin/video.py`, which is not under `src/`.
Per the spec (§4.4), decoding the bracketed payload fails with a
decode-kind error — not a `ParseException` — when the payload is not valid
JSON, and is otherwise permissive with declared defaults for optional
fields; we model exactly that contract, reading no field beyond the
defaults. -/
def decodeRouterData (s : List Char) : Except Err DouyinVideoData :=
  match parseJson s with
  | none => .error (.decode "msgspec: JSON is malformed")
  | some _ =>
    .ok { image_urls := [], video_url := none, cover_url := none, video := none
        , author := ⟨""⟩, avatar_url := none, desc := "", create_time := 0 }

/-- `DouyinParser.parse_video` (lines 140-208): fetch, status check, marker
extraction, msgspec decode, content assembly, result.  The network is the
`env` parameter; the per-index conversion outcomes are `conv` (the
`asyncio.gather` output is in task order, i.e. `indexedResults`). -/
def parse_video (env : String → HttpResponse)
    (decodeRD : List Char → Except Err DouyinVideoData)
    (conv : Nat → Option (List Nat)) (url : String) : Except Err ParsedResult :=
  let resp := env url
  if resp.status ≠ 200 then .error (.parse ("status: " ++ toString resp.status))
  else
    match douyinExtract resp.text with
    | .error e => .error e
    | .ok blob =>
      match decodeRD blob with
      | .error e => .error e
      | .ok vd =>
        .ok { title := vd.desc
            , text := none
            , author := { name := vd.author.nickname, avatar := vd.avatar_url }
            , contents := douyinVideoContents vd (indexedResults vd.image_urls conv)
            , timestamp := some vd.create_time }

def _build_m_douyin_url (ty vid : String) : String :=
  "https://m.douyin.com/share/" ++ ty ++ "/" ++ vid

def _build_iesdouyin_url (ty vid : String) : String :=
  "https://www.iesdouyin.com/share/" ++ ty ++ "/" ++ vid

/-- The message of the final `ParseException` of `_parse_douyin`. -/
def douyinFinalMsg : String := "分享已删除或资源直链提取失败, 请稍后再试"

/-- The `for url in (...): try ... except ParseException: continue` loop of
`_parse_douyin` (lines 53-62), with the list of attempted URLs recorded.
Only `ParseException` is caught; any other exception propagates at once. -/
def runChainTrace (step : String → Except Err ParsedResult) :
    List String → List String × Except Err ParsedResult
  | [] => ([], .error (.parse douyinFinalMsg))
  | u :: rest =>
    match step u with
    | .ok r => ([u], .ok r)
    | .error (.parse _) =>
      let t := runChainTrace step rest
      (u :: t.1, t.2)
    | .error e => ([u], .error e)

def douyinUrlChain (ty vid : String) : List String :=
  [_build_m_douyin_url ty vid, _build_iesdouyin_url ty vid]

/-- The non-slides path of `_parse_douyin`: try `parse_video` on the
m.douyin URL, then on the iesdouyin URL. -/
def parse_douyin_main (step : String → Except Err ParsedResult) (ty vid : String) :
    List String × Except Err ParsedResult :=
  runChainTrace step (douyinUrlChain ty vid)

/-- Outcome of `_parse_douyin`'s dispatch on `ty`. -/
inductive DouyinDispatch where
  | slides (vid : String)
  | main (trace : List String) (result : Except Err ParsedResult)

/-- `_parse_douyin` (lines 47-62): `slides` goes to `parse_slides`, the
rest to the two-URL fallback chain. -/
def _parse_douyin (step : String → Except Err ParsedResult) (ty vid : String) :
    DouyinDispatch :=
  if ty = "slides" then .slides vid
  else
    let p := parse_douyin_main step ty vid
    .main p.1 p.2

/-- Modelled from the spec: the `SlidesInfo` schema lives in the missing
module `parsers/douyin/slides.py`; only the attributes `parse_slides`
reads are modelled. -/
structure SlidesData where
  image_urls : List String
  dynamic_urls : List String
  name : String
  avatar_url : Option String
  desc : String
  create_time : Int

/-- Modelled from the spec: `create_dynamic_contents` lives in the missing
base module; it builds one dynamic content per URL, in order. -/
def create_dynamic_contents (dynamic_urls : List String) : List Content :=
  dynamic_urls.map .dynamic

/-- The content assembly of `parse_slides` (lines 224-252): the image block
(identical to `parse_video`), then the dynamic block appended after it. -/
def parse_slides_contents (sd : SlidesData)
    (results : List (Nat × Option (List Nat))) : List Content :=
  (if sd.image_urls ≠ [] then
    create_image_contents (buildImageSources sd.image_urls results)
  else []) ++
  (if sd.dynamic_urls ≠ [] then create_dynamic_contents sd.dynamic_urls else [])

/-! ## The xiaohongshu resolver

The stream/video schema and the two embedded note schemas of
`xiaohongshu.py`, with the msgspec `convert` semantics modelled over
`JValue`: required fields must be present with the right shape, optional
fields take their declared defaults, unknown keys are ignored. -/
/-- `Stream` (lines 326-330): each codec entry is
`list[dict[str, Any]] | None = None`; a dict is modelled by its field
list. -/
structure Stream where
  h264 : Option (List JFields)
  h265 : Option (List JFields)
  av1 : Option (List JFields)
  h266 : Option (List JFields)

structure Media where
  stream : Stream

structure Video where
  media : Media

/-- Truthiness of one stream entry (`if stream.h265:`): present and
non-empty. -/
def streamPick : Option (List JFields) → Option JFields
  | some (d :: _) => some d
  | _ => none

def masterUrlKey : List Char := "masterUrl".toList

/-- `d["masterUrl"]`: a `KeyError` escapes as a non-ParseException
error. -/
def masterUrlOf (d : JFields) : Except String JValue :=
  match JFields.lookupKey masterUrlKey d with
  | some jv => .ok jv
  | none => .error "KeyError: masterUrl"

/-- `Video.video_url` (lines 340-353): h265, then h264, then av1, then
h266; `None` when no list is present and non-empty. -/
def Video.video_url (v : Video) : Except String (Option JValue) :=
  match streamPick v.media.stream.h265 with
  | some d => (masterUrlOf d).map some
  | none =>
    match streamPick v.media.stream.h264 with
    | some d => (masterUrlOf d).map some
    | none =>
      match streamPick v.media.stream.av1 with
      | some d => (masterUrlOf d).map some
      | none =>
        match streamPick v.media.stream.h266 with
        | some d => (masterUrlOf d).map some
        | none => .ok none

/-- Rendering of the codec preference order stated by the spec: the first
present-and-non-empty list among h265, h264, av1, h266. -/
def firstNonEmptyStream (s : Stream) : Option JFields :=
  ([s.h265, s.h264, s.av1, s.h266].map streamPick).findSome? id

/-- `User` of `parse_explore` (lines 144-146). -/
structure XhsUser where
  nickname : String
  avatar : String

/-- `Image` of `parse_explore` (lines 141-142). -/
structure ExploreImage where
  urlDefault : String

/-- `NoteDetail` (lines 148-172). -/
structure NoteDetail where
  type : String
  title : String
  desc : String
  user : XhsUser
  imageList : List ExploreImage
  video : Option Video

def NoteDetail.nickname (nd : NoteDetail) : String := nd.user.nickname

def NoteDetail.avatar_url (nd : NoteDetail) : String := nd.user.avatar

def NoteDetail.image_urls (nd : NoteDetail) : List String :=
  nd.imageList.map (·.urlDefault)

/-- `NoteDetail.video_url`: `None` unless `type == "video"` and a video is
present. -/
def NoteDetail.video_url (nd : NoteDetail) : Except String (Option JValue) :=
  match nd.video with
  | none => .ok none
  | some v => if nd.type = "video" then v.video_url else .ok none

/-! msgspec `convert` over decoded JSON. -/
def decodeStr : JValue → Except String String
  | .str s => .ok s.asString
  | _ => .error "expected str"

def reqField {α : Type} (fs : JFields) (k : String)
    (f : JValue → Except String α) : Except String α :=
  match JFields.lookupKey k.toList fs with
  | none => .error ("Object missing required field " ++ k)
  | some v => f v

def optField {α : Type} (fs : JFields) (k : String)
    (f : JValue → Except String α) (d : α) : Except String α :=
  match JFields.lookupKey k.toList fs with
  | none => .ok d
  | some v => f v

def decodeUser : JValue → Except String XhsUser
  | .obj fs => do
    let n ← reqField fs "nickname" decodeStr
    let a ← reqField fs "avatar" decodeStr
    .ok ⟨n, a⟩
  | _ => .error "expected object"

def decodeExploreImage : JValue → Except String ExploreImage
  | .obj fs => do
    let u ← reqField fs "urlDefault" decodeStr
    .ok ⟨u⟩
  | _ => .error "expected object"

def decodeJListWith {α : Type} (f : JValue → Except String α) :
    JList → Except String (List α)
  | .nil => .ok []
  | .cons v tl => do
    let x ← f v
    let r ← decodeJListWith f tl
    .ok (x :: r)

def decodeListOf {α : Type} (f : JValue → Except String α) :
    JValue → Except String (List α)
  | .arr xs => decodeJListWith f xs
  | _ => .error "expected list"

def decodeDict : JValue → Except String JFields
  | .obj fs => .ok fs
  | _ => .error "expected dict"

def decodeDictsOrNull : JValue → Except String (Option (List JFields))
  | .null => .ok none
  | v => (decodeListOf decodeDict v).map some

def decodeStream : JValue → Except String Stream
  | .obj fs => do
    let a ← optField fs "h264" decodeDictsOrNull none
    let b ← optField fs "h265" decodeDictsOrNull none
    let c ← optField fs "av1" decodeDictsOrNull none
    let d ← optField fs "h266" decodeDictsOrNull none
    .ok ⟨a, b, c, d⟩
  | _ => .error "expected object"

def decodeMedia : JValue → Except String Media
  | .obj fs => do
    let s ← reqField fs "stream" decodeStream
    .ok ⟨s⟩
  | _ => .error "expected object"

def decodeVideo : JValue → Except String Video
  | .obj fs => do
    let m ← reqField fs "media" decodeMedia
    .ok ⟨m⟩
  | _ => .error "expected object"

def decodeVideoOrNull : JValue → Except String (Option Video)
  | .null => .ok none
  | v => (decodeVideo v).map some

/-- `convert(note_data, type=NoteDetail)`: required `type`, `title`,
`desc`, `user`; optional `imageList` (default `[]`) and `video` (default
`None`); unknown keys ignored. -/
def decodeNoteDetail : JValue → Except String NoteDetail
  | .obj fs => do
    let ty ← reqField fs "type" decodeStr
    let ti ← reqField fs "title" decodeStr
    let de ← reqField fs "desc" decodeStr
    let us ← reqField fs "user" decodeUser
    let il ← optField fs "imageList" (decodeListOf decodeExploreImage) []
    let vi ← optField fs "video" decodeVideoOrNull none
    .ok ⟨ty, ti, de, us, il, vi⟩
  | _ => .error "expected object"

def pyTruthyOpt : Option JValue → Bool
  | some jv => pyTruthy jv
  | none => false

/-- The content assembly of `parse_explore` (lines 176-206): the video
branch has priority; its cover is the first image URL when any; the
omitted `create_video_content` duration argument is modelled by the
default 0. -/
def parse_explore_contents (nd : NoteDetail)
    (results : List (Nat × Option (List Nat))) : Except String (List Content) :=
  match nd.video_url with
  | .error e => .error e
  | .ok vu =>
    if pyTruthyOpt vu then
      .ok [Content.video (vu.getD .null) nd.image_urls.head? 0]
    else if nd.image_urls ≠ [] then
      .ok (create_image_contents (buildImageSources nd.image_urls results))
    else .ok []

/-- `Image` of `parse_discovery` (lines 238-240). -/
structure DiscoveryImage where
  url : String
  urlSizeLarge : Option String

/-- `User` of `parse_discovery` (lines 242-244). -/
structure DiscoveryUser where
  nickName : String
  avatar : String

/-- `NoteData` (lines 246-264). -/
structure NoteData where
  type : String
  title : String
  desc : String
  user : DiscoveryUser
  time : Int
  lastUpdateTime : Int
  imageList : List DiscoveryImage
  video : Option Video

def NoteData.image_urls (nd : NoteData) : List String :=
  nd.imageList.map (·.url)

def NoteData.video_url (nd : NoteData) : Except String (Option JValue) :=
  match nd.video with
  | none => .ok none
  | some v => if nd.type = "video" then v.video_url else .ok none

/-- `NormalNotePreloadData` (lines 266-273); `item.urlSizeLarge or
item.url` falls back on `None` and on the empty string. -/
structure NormalNotePreloadData where
  title : String
  desc : String
  imagesList : List DiscoveryImage

def NormalNotePreloadData.image_urls (p : NormalNotePreloadData) : List String :=
  p.imagesList.map fun i =>
    match i.urlSizeLarge with
    | some s => if s ≠ "" then s else i.url
    | none => i.url

/-- The content assembly of `parse_discovery` (lines 277-306): in the video
branch the cover is `img_urls[0]`, an `IndexError` when the chosen list is
empty; `preload` is `some` iff `normalNotePreloadData` was a non-empty
dict (its own convert step is modelled as already done). -/
def parse_discovery_contents (nd : NoteData) (preload : Option NormalNotePreloadData)
    (results : List (Nat × Option (List Nat))) : Except String (List Content) :=
  match nd.video_url with
  | .error e => .error e
  | .ok vu =>
    if pyTruthyOpt vu then
      match
        (match preload with
         | some p => p.image_urls
         | none => nd.image_urls) with
      | c :: _ => .ok [Content.video (vu.getD .null) (some c) 0]
      | [] => .error "IndexError: list index out of range"
    else if nd.image_urls ≠ [] then
      .ok (create_image_contents (buildImageSources nd.image_urls results))
    else .ok []

/-- `XiaoHongShuParser._parse_discovery` (lines 61-70): try
`parse_explore`; on a `ParseException` fall back to `parse_discovery`;
other exceptions propagate.  The boolean records whether `parse_discovery`
was called. -/
def parse_discovery_route (explore : Except Err ParsedResult)
    (discovery : Unit → Except Err ParsedResult) : Bool × Except Err ParsedResult :=
  match explore with
  | .ok r => (false, .ok r)
  | .error (.parse _) => (true, discovery ())
  | .error e => (false, .error e)

/-! ## Concrete instances used by witnesses and counterexamples -/
/-- Conversion outcomes for the C1 witness: index 1 fails, 0 and 2
succeed. -/
def c1conv : Nat → Option (List Nat)
  | 0 => some [1]
  | 1 => none
  | 2 => some [2, 3]
  | _ + 3 => none

/-- A completion order different from the task order. -/
def c1results : List (Nat × Option (List Nat)) :=
  [(2, some [2, 3]), (0, some [1]), (1, none)]

/-! ## C3 -/
/-- A page whose status is 200, whose body carries the router marker, but
whose bracketed blob is not valid JSON. -/
def c3env : String → HttpResponse :=
  fun _ => ⟨200, "window._ROUTER_DATA = notjson</script>".toList⟩

/-! ## C5 -/
/-- A concrete successful result for the C5 witness. -/
def c5result : ParsedResult :=
  { title := "t", text := none, author := { name := "a", avatar := none }
  , contents := [Content.dynamic "d"], timestamp := none }

/-! ## C2 -/
/-- A douyin `video_data` carrying both a non-empty image list and a
resolved video URL. -/
def c2vd : DouyinVideoData :=
  { image_urls := ["u"], video_url := some "v", cover_url := some "c"
  , video := some ⟨5⟩, author := ⟨"a"⟩, avatar_url := none
  , desc := "d", create_time := 0 }

/-- A note detail whose type is video with an h265 stream carrying a
master URL, used by the C2 witness. -/
def c2video : Video :=
  ⟨⟨⟨none, some [.fcons masterUrlKey (.str "m".toList) .fnil], none, none⟩⟩⟩

def c2nd : NoteDetail :=
  { type := "video", title := "t", desc := "d", user := ⟨"n", "a"⟩
  , imageList := [⟨"i0"⟩, ⟨"i1"⟩], video := some c2video }

/-- A slides payload with images and dynamic assets for the C2 witness. -/
def c2sd : SlidesData :=
  { image_urls := ["s0"], dynamic_urls := ["d0"], name := "n"
  , avatar_url := none, desc := "d", create_time := 0 }

/-! ## C6 -/
/-- A page carrying the marker with an empty-object state blob: no images,
no video. -/
def c6env : String → HttpResponse :=
  fun _ => ⟨200, ("window._ROUTER_DATA = \x7b\x7d</script>").toList⟩

/-! ## C8 -/
/-- A payload whose four required fields are present and well-typed but
whose optional `imageList` has the wrong type (a number instead of a
list). -/
def c8fields : JFields :=
  .fcons "type".toList (.str "normal".toList)
    (.fcons "title".toList (.str "t".toList)
      (.fcons "desc".toList (.str "d".toList)
        (.fcons "user".toList
          (.obj (.fcons "nickname".toList (.str "n".toList)
            (.fcons "avatar".toList (.str "a".toList) .fnil)))
          (.fcons "imageList".toList (.num 5) .fnil))))

/-! ## C9 -/
/-- A fetched body whose state blob holds `undefined` inside a JSON string
value. -/
def c9html : List Char :=
  "window.__INITIAL_STATE__=\x7b\"desc\":\"xundefinedy\"\x7d</script>".toList

/-- A payload with both a JavaScript `undefined` value and strings free of
the substring, for the C9 witness. -/
def c9v : JValue :=
  .obj (.fcons "a".toList .undef
    (.fcons "b".toList (.str "xu".toList)
      (.fcons "n".toList (.num (-3)) .fnil)))

/-! ## Theorems -/

theorem containsSub_iff (s p : List Char) :
    containsSub s p = true ↔ ∃ n, p <+: s.drop n := by
  unfold containsSub
  rw [List.any_eq_true]
  constructor
  · rintro ⟨n, _, hp⟩
    exact ⟨n, List.isPrefixOf_iff_prefix.mp hp⟩
  · rintro ⟨n, hp⟩
    by_cases hn : n ≤ s.length
    · exact ⟨n, List.mem_range.mpr (by omega), List.isPrefixOf_iff_prefix.mpr hp⟩
    · refine ⟨s.length, List.mem_range.mpr (by omega), ?_⟩
      rw [List.drop_eq_nil_of_le (le_of_lt (by omega))] at hp
      rw [List.drop_eq_nil_of_le (le_refl _)]
      exact List.isPrefixOf_iff_prefix.mpr hp

theorem not_occurs_of_containsSub_eq_false {s p : List Char}
    (h : containsSub s p = false) : ∀ n, ¬ p <+: s.drop n := by
  intro n hp
  have : containsSub s p = true := (containsSub_iff s p).mpr ⟨n, hp⟩
  rw [h] at this
  exact Bool.false_ne_true this

set_option maxHeartbeats 1000000 in
theorem fixU_pat (cs : List Char) : fixU (patU ++ cs) = nullChars ++ fixU cs := rfl

set_option maxHeartbeats 1000000 in
theorem fixU_not_pre {c : Char} {cs : List Char} (h : ¬ patU <+: (c :: cs)) :
    fixU (c :: cs) = c :: fixU cs := by
  rw [fixU.eq_def]
  split
  · rename_i cs' heq
    exfalso
    apply h
    exact ⟨cs', by rw [heq]; rfl⟩
  · rename_i c' cs' hne heq
    injection heq with e0 e1
    subst e0; subst e1
    rfl
  · rename_i heq
    exact absurd heq (List.cons_ne_nil c cs)

theorem fixU_pre {l : List Char} (h : patU <+: l) :
    fixU l = nullChars ++ fixU (l.drop patU.length) := by
  obtain ⟨t, rfl⟩ := h
  rw [fixU_pat, List.drop_left]

theorem fixU_cons_safe {b : Char} (hb : b ≠ 'u') (rest : List Char) :
    fixU (b :: rest) = b :: fixU rest := by
  apply fixU_not_pre
  rintro ⟨t, ht⟩
  exact hb (List.cons.injEq .. ▸ ht).1.symm

/-- A prefix of an appended list either fits in the left part or reaches the
head of the right part. -/
theorem prefix_append_split {p xs rest : List Char} (h : p <+: xs ++ rest) :
    p <+: xs ∨ ∃ hd tl, rest = hd :: tl ∧ hd ∈ p := by
  by_cases hle : p.length ≤ xs.length
  · left
    have hp := List.prefix_iff_eq_take.mp h
    rw [List.take_append_eq_append_take, Nat.sub_eq_zero_of_le hle, List.take_zero,
      List.append_nil] at hp
    exact hp ▸ List.take_prefix p.length xs
  · right
    match rest with
    | [] =>
      rw [List.append_nil] at h
      exact absurd h.length_le (by omega)
    | hd :: tl =>
      refine ⟨hd, tl, rfl, ?_⟩
      obtain ⟨t, ht⟩ := h
      have hx : xs.length < p.length := by omega
      have h1 : (p ++ t)[xs.length]? = p[xs.length]? := by
        rw [List.getElem?_append]
        simp [if_pos hx]
      have h2 : (xs ++ hd :: tl)[xs.length]? = some hd := by
        rw [List.getElem?_append_right (le_refl _)]
        simp
      rw [ht, h2] at h1
      rw [List.getElem?_eq_getElem hx] at h1
      injection h1 with h1
      exact h1 ▸ List.getElem_mem hx

theorem containsSub_tail {c : Char} {t p : List Char}
    (h : containsSub (c :: t) p = false) : containsSub t p = false := by
  cases hct : containsSub t p with
  | false => rfl
  | true =>
    exfalso
    obtain ⟨n, hp⟩ := (containsSub_iff t p).mp hct
    exact not_occurs_of_containsSub_eq_false h (n + 1) (by simpa using hp)

theorem headSafe_nil : headSafe [] := by
  intro hd tl h
  exact absurd h (by simp)

theorem headSafe_cons {hd : Char} (h : hd ∉ patU) (tl : List Char) :
    headSafe (hd :: tl) := by
  intro hd' tl' he
  injection he with e1 _
  exact e1 ▸ h

/-- `str.replace` leaves untouched a segment with no occurrence of the
pattern, provided the segment is followed by a safe boundary. -/
theorem fixU_append {xs rest : List Char} (hocc : containsSub xs patU = false)
    (hsafe : headSafe rest) :
    fixU (xs ++ rest) = xs ++ fixU rest := by
  induction xs with
  | nil => simp
  | cons c t ih =>
    have hno := not_occurs_of_containsSub_eq_false hocc
    have h0 : ¬ patU <+: c :: (t ++ rest) := by
      intro hp
      rw [← List.cons_append] at hp
      rcases prefix_append_split hp with hp1 | ⟨hd, tl, he, hmem⟩
      · exact hno 0 (by simpa using hp1)
      · exact hsafe hd tl he hmem
    rw [List.cons_append, fixU_not_pre h0, ih (containsSub_tail hocc), List.cons_append]

theorem containsSub_eq_false_of_no_u {xs : List Char}
    (h : ∀ c ∈ xs, c ≠ 'u') : containsSub xs patU = false := by
  cases hc : containsSub xs patU with
  | false => rfl
  | true =>
    exfalso
    obtain ⟨n, t, ht⟩ := (containsSub_iff xs patU).mp hc
    have hu : 'u' ∈ xs.drop n := by
      rw [← ht]
      simp [patU]
    exact h 'u' (List.mem_of_mem_drop hu) rfl

theorem digitChar_isDigit (d : Nat) : (digitChar d).isDigit = true := by
  unfold digitChar
  repeat' split
  all_goals decide

theorem serNatAux_digits :
    ∀ fuel n c, c ∈ serNatAux fuel n → c.isDigit = true := by
  intro fuel
  induction fuel with
  | zero =>
    intro n c h
    simp [serNatAux] at h
  | succ m ih =>
    intro n c h
    by_cases hn : n < 10
    · simp [serNatAux, hn] at h
      exact h ▸ digitChar_isDigit n
    · simp [serNatAux, hn] at h
      rcases h with h | h
      · exact ih _ c h
      · exact h ▸ digitChar_isDigit (n % 10)

theorem isDigit_ne_u {c : Char} (h : c.isDigit = true) : c ≠ 'u' := by
  intro hc
  subst hc
  exact Bool.noConfusion h

theorem serInt_no_occ (n : Int) : containsSub (serInt n) patU = false := by
  apply containsSub_eq_false_of_no_u
  intro c hc
  unfold serInt at hc
  split at hc
  · rcases List.mem_cons.mp hc with rfl | hc
    · decide
    · exact isDigit_ne_u (serNatAux_digits _ _ c hc)
  · exact isDigit_ne_u (serNatAux_digits _ _ c hc)

theorem strClean_no_occ {s : List Char} (h : strClean s = true) :
    containsSub s patU = false := by
  unfold strClean at h
  simp only [Bool.and_eq_true, Bool.not_eq_true'] at h
  exact h.2

/-- Replacement walks through a serialized string literal unchanged. -/
theorem fixU_str_seg {s : List Char} (h : strClean s = true) (rest : List Char) :
    fixU ('"' :: (s ++ '"' :: rest)) = '"' :: (s ++ '"' :: fixU rest) := by
  rw [fixU_cons_safe (by decide),
    fixU_append (strClean_no_occ h) (headSafe_cons (by decide) _),
    fixU_cons_safe (by decide)]

theorem cleanL_cons {v : JValue} {tl : JList} (h : cleanL (.cons v tl) = true) :
    cleanV v = true ∧ cleanL tl = true := by
  rw [cleanL] at h
  simp only [Bool.and_eq_true] at h
  exact h

theorem cleanF_cons {k : List Char} {v : JValue} {tl : JFields}
    (h : cleanF (.fcons k v tl) = true) :
    strClean k = true ∧ cleanV v = true ∧ cleanF tl = true := by
  rw [cleanF] at h
  simp only [Bool.and_eq_true] at h
  exact ⟨h.1.1, h.1.2, h.2⟩

mutual

/-- On the canonical rendering of a clean payload, Python's
`.replace("undefined", "null")` rewrites exactly the JavaScript
`undefined` literals, yielding the rendering of the payload with
`undefined` read as `null`. -/
theorem fixU_ser :
    ∀ v : JValue, cleanV v = true → ∀ rest, headSafe rest →
      fixU (ser v ++ rest) = ser (jsToNull v) ++ fixU rest
  | .null, _, rest, hs => by
    simp only [ser, jsToNull]
    exact fixU_append (by decide) hs
  | .undef, _, rest, hs => by
    simp only [ser, jsToNull]
    rw [fixU_pat]
    rfl
  | .bool true, _, rest, hs => by
    simp only [ser, jsToNull]
    exact fixU_append (by decide) hs
  | .bool false, _, rest, hs => by
    simp only [ser, jsToNull]
    exact fixU_append (by decide) hs
  | .num n, _, rest, hs => by
    simp only [ser, jsToNull]
    exact fixU_append (serInt_no_occ n) hs
  | .str s, hc, rest, hs => by
    simp only [ser, jsToNull, List.cons_append, List.append_assoc,
      List.singleton_append]
    exact fixU_str_seg (by simpa [cleanV] using hc) rest
  | .arr xs, hc, rest, hs => by
    simp only [ser, jsToNull, List.cons_append]
    rw [fixU_cons_safe (by decide),
      fixU_serItems xs (by simpa [cleanV] using hc) rest hs]
  | .obj fs, hc, rest, hs => by
    simp only [ser, jsToNull, List.cons_append]
    rw [fixU_cons_safe (by decide),
      fixU_serFields fs (by simpa [cleanV] using hc) rest hs]

theorem fixU_serItems :
    ∀ xs : JList, cleanL xs = true → ∀ rest, headSafe rest →
      fixU (serItems xs ++ rest) = serItems (jsToNullList xs) ++ fixU rest
  | .nil, _, rest, hs => by
    simp only [serItems, jsToNullList, List.singleton_append]
    exact fixU_cons_safe (by decide) rest
  | .cons v .nil, hc, rest, hs => by
    have hv : cleanV v = true := (cleanL_cons hc).1
    simp only [serItems, jsToNullList, List.append_assoc, List.singleton_append,
      List.nil_append]
    rw [fixU_ser v hv (']' :: rest) (headSafe_cons (by decide) _),
      fixU_cons_safe (by decide)]
  | .cons v (.cons w tl), hc, rest, hs => by
    have hv : cleanV v = true := (cleanL_cons hc).1
    have htl : cleanL (.cons w tl) = true := (cleanL_cons hc).2
    simp only [serItems, jsToNullList, List.append_assoc, List.cons_append,
      List.nil_append]
    rw [fixU_ser v hv (',' :: (serItems (.cons w tl) ++ rest))
        (headSafe_cons (by decide) _),
      fixU_cons_safe (by decide),
      fixU_serItems (.cons w tl) htl rest hs]
    simp [jsToNullList]

theorem fixU_serFields :
    ∀ fs : JFields, cleanF fs = true → ∀ rest, headSafe rest →
      fixU (serFields fs ++ rest) = serFields (jsToNullFields fs) ++ fixU rest
  | .fnil, _, rest, hs => by
    simp only [serFields, jsToNullFields, List.singleton_append]
    exact fixU_cons_safe (by decide) rest
  | .fcons k v .fnil, hc, rest, hs => by
    have hk : strClean k = true := (cleanF_cons hc).1
    have hv : cleanV v = true := (cleanF_cons hc).2.1
    simp only [serFields, jsToNullFields, List.append_assoc, List.cons_append,
      List.singleton_append, List.nil_append]
    rw [fixU_str_seg hk, fixU_cons_safe (by decide),
      fixU_ser v hv (rbrace :: rest) (headSafe_cons (by decide) _),
      fixU_cons_safe (by decide)]
  | .fcons k v (.fcons k2 w tl), hc, rest, hs => by
    have hk : strClean k = true := (cleanF_cons hc).1
    have hv : cleanV v = true := (cleanF_cons hc).2.1
    have htl : cleanF (.fcons k2 w tl) = true := (cleanF_cons hc).2.2
    simp only [serFields, jsToNullFields, List.append_assoc, List.cons_append,
      List.singleton_append, List.nil_append]
    rw [fixU_str_seg hk, fixU_cons_safe (by decide),
      fixU_ser v hv (',' :: (serFields (.fcons k2 w tl) ++ rest))
        (headSafe_cons (by decide) _),
      fixU_cons_safe (by decide),
      fixU_serFields (.fcons k2 w tl) htl rest hs]
    simp [jsToNullFields]

end

/-! ## Parser-serializer roundtrip -/
theorem skipWs_cons {c : Char} (h : wsB c = false) (l : List Char) :
    skipWs (c :: l) = c :: l := by
  simp [skipWs, List.dropWhile_cons, h]

theorem contains_cons_false {c x : Char} {t : List Char}
    (h : (c :: t).contains x = false) : c ≠ x ∧ t.contains x = false := by
  simp only [List.contains_cons, Bool.or_eq_false_iff, beq_eq_false_iff_ne, ne_eq] at h
  exact ⟨fun he => h.1 he.symm, h.2⟩

theorem parseStrBody_append {s : List Char} (rest : List Char)
    (hq : s.contains '"' = false) (hb : s.contains '\\' = false) :
    parseStrBody (s ++ '"' :: rest) = some (s, rest) := by
  induction s with
  | nil => simp [parseStrBody]
  | cons c t ih =>
    obtain ⟨hq1, hq2⟩ := contains_cons_false hq
    obtain ⟨hb1, hb2⟩ := contains_cons_false hb
    simp [parseStrBody, hq1, hb1, ih hq2 hb2]

theorem noDigitHead_nil : noDigitHead [] := by
  intro hd tl h
  exact absurd h (by simp)

theorem noDigitHead_cons {hd : Char} (h : hd.isDigit = false) (tl : List Char) :
    noDigitHead (hd :: tl) := by
  intro hd' tl' he
  injection he with e1 _
  exact e1 ▸ h

theorem takeWhile_append_all {p : Char → Bool} {xs rest : List Char}
    (hall : ∀ c ∈ xs, p c = true)
    (hrest : ∀ hd tl, rest = hd :: tl → p hd = false) :
    (xs ++ rest).takeWhile p = xs ∧ (xs ++ rest).dropWhile p = rest := by
  induction xs with
  | nil =>
    simp only [List.nil_append]
    match rest with
    | [] => simp
    | hd :: tl =>
      simp [List.takeWhile_cons, List.dropWhile_cons, hrest hd tl rfl]
  | cons x t ih =>
    have hx := hall x (by simp)
    have iht := ih fun c hc => hall c (by simp [hc])
    simp [List.takeWhile_cons, List.dropWhile_cons, hx, iht.1, iht.2]

theorem parseDigits_append {ds rest : List Char}
    (h : ∀ c ∈ ds, c.isDigit = true) (hne : ds ≠ [])
    (hrest : noDigitHead rest) :
    parseDigits (ds ++ rest) = some (natOfDigits ds, rest) := by
  obtain ⟨h1, h2⟩ := takeWhile_append_all h hrest
  simp [parseDigits, h1, h2, hne]

theorem digitChar_val {d : Nat} (h : d < 10) : (digitChar d).toNat - 48 = d := by
  interval_cases d <;> decide

theorem serNatAux_ne_nil {fuel : Nat} (h : 0 < fuel) (n : Nat) :
    serNatAux fuel n ≠ [] := by
  match fuel, h with
  | f + 1, _ =>
    rw [serNatAux]
    split
    · simp
    · simp

theorem foldl_serNatAux :
    ∀ fuel n a, n < 10 ^ fuel →
      (serNatAux fuel n).foldl (fun x c => 10 * x + (c.toNat - 48)) a =
        a * 10 ^ (serNatAux fuel n).length + n := by
  intro fuel
  induction fuel with
  | zero =>
    intro n a h
    have : n = 0 := by simpa using h
    subst this
    simp [serNatAux]
  | succ m ih =>
    intro n a h
    by_cases hn : n < 10
    · simp [serNatAux, hn, digitChar_val hn]
      ring
    · rw [serNatAux, if_neg hn, List.foldl_append]
      have hdiv : n / 10 < 10 ^ m := by
        apply Nat.div_lt_of_lt_mul
        rw [← pow_succ']
        exact h
      rw [ih (n / 10) a hdiv]
      simp only [List.foldl_cons, List.foldl_nil, List.length_append,
        List.length_cons, List.length_nil]
      rw [digitChar_val (Nat.mod_lt _ (by omega))]
      have hsplit : 10 * (n / 10) + n % 10 = n := Nat.div_add_mod n 10
      rw [pow_succ]
      ring_nf
      omega

theorem natOfDigits_serNat (n : Nat) : natOfDigits (serNat n) = n := by
  have hlt : n < 10 ^ (n + 1) := by
    calc n < 2 ^ n := Nat.lt_two_pow n
    _ ≤ 10 ^ n := Nat.pow_le_pow_left (by omega) n
    _ ≤ 10 ^ (n + 1) := Nat.pow_le_pow_right (by omega) (by omega)
  unfold natOfDigits serNat
  rw [foldl_serNatAux (n + 1) n 0 hlt]
  simp

theorem serNat_digits {n : Nat} {c : Char} (h : c ∈ serNat n) :
    c.isDigit = true := serNatAux_digits _ _ c h

theorem serNat_ne_nil (n : Nat) : serNat n ≠ [] := by
  unfold serNat
  exact serNatAux_ne_nil (by omega) n

theorem isDigit_ne {c x : Char} (hc : c.isDigit = true) (hx : x.isDigit = false) :
    c ≠ x := by
  intro he
  rw [he, hx] at hc
  exact Bool.noConfusion hc

theorem wsB_of_isDigit {c : Char} (h : c.isDigit = true) : wsB c = false := by
  cases hw : wsB c with
  | false => rfl
  | true =>
    exfalso
    unfold wsB at hw
    simp only [Bool.or_eq_true, decide_eq_true_eq] at hw
    rcases hw with ((rfl | rfl) | rfl) | rfl <;> exact Bool.noConfusion h

/-! Head-reduction facts for the parser, used with symbolic continuations. -/
set_option maxHeartbeats 1000000 in
theorem parseVal_succ_quote (m : Nat) (X : List Char) :
    parseVal (m + 1) ('"' :: X) =
      (parseStrBody X).map fun p => (JValue.str p.1, p.2) := rfl

set_option maxHeartbeats 1000000 in
theorem parseVal_succ_lbrack (m : Nat) (X : List Char) :
    parseVal (m + 1) ('[' :: X) = parseArrTail m X := rfl

set_option maxHeartbeats 1000000 in
theorem parseVal_succ_null (m : Nat) (X : List Char) :
    parseVal (m + 1) ('n' :: 'u' :: 'l' :: 'l' :: X) = some (.null, X) := rfl

set_option maxHeartbeats 1000000 in
theorem parseVal_succ_true (m : Nat) (X : List Char) :
    parseVal (m + 1) ('t' :: 'r' :: 'u' :: 'e' :: X) = some (.bool true, X) := rfl

set_option maxHeartbeats 1000000 in
theorem parseVal_succ_false (m : Nat) (X : List Char) :
    parseVal (m + 1) ('f' :: 'a' :: 'l' :: 's' :: 'e' :: X) =
      some (.bool false, X) := rfl

set_option maxHeartbeats 1000000 in
theorem parseVal_succ_neg (m : Nat) (X : List Char) :
    parseVal (m + 1) ('-' :: X) =
      (parseDigits X).map fun p => (JValue.num (-(p.1 : Int)), p.2) := rfl

set_option maxHeartbeats 1000000 in
theorem parseVal_lbrace (m : Nat) (X : List Char) :
    parseVal (m + 1) (lbrace :: X) = parseObjTail m X := rfl

set_option maxHeartbeats 1000000 in
theorem parseVal_digit {c : Char} (hc : c.isDigit = true) (m : Nat) (X : List Char) :
    parseVal (m + 1) (c :: X) =
      (parseDigits (c :: X)).map fun p => (JValue.num (p.1 : Int), p.2) := by
  simp only [parseVal]
  rw [skipWs_cons (wsB_of_isDigit hc) X]
  split
  · rename_i heq
    injection heq with e1 e2
    subst e1
    exact absurd hc (by decide)
  · rename_i heq
    injection heq with e1 e2
    subst e1
    exact absurd hc (by decide)
  · rename_i heq
    injection heq with e1 e2
    subst e1
    exact absurd hc (by decide)
  · rename_i heq
    injection heq with e1 e2
    subst e1
    exact absurd hc (by decide)
  · rename_i heq
    injection heq with e1 e2
    subst e1
    exact absurd hc (by decide)
  · rename_i heq
    injection heq with e1 e2
    subst e1
    exact absurd hc (by decide)
  · rename_i c1 r1 heq
    injection heq with e1 e2
    subst e1
    subst e2
    rw [if_pos hc]
  · rename_i heq
    exact absurd heq (by simp)

set_option maxHeartbeats 1000000 in
theorem parseArrTail_head {c : Char} (m : Nat) (X : List Char)
    (hws : wsB c = false) (hne : c ≠ ']') :
    parseArrTail (m + 1) (c :: X) =
      (parseItems m (c :: X)).map fun p => (JValue.arr p.1, p.2) := by
  simp only [parseArrTail]
  rw [skipWs_cons hws X]
  split
  · rename_i c2 r2 heq
    injection heq with e1 e2
    subst e1
    subst e2
    rw [if_neg hne]
  · rename_i heq
    exact absurd heq (by simp)

set_option maxHeartbeats 1000000 in
theorem parseObjTail_quote (m : Nat) (X : List Char) :
    parseObjTail (m + 1) ('"' :: X) =
      (parseFields m ('"' :: X)).map fun p => (JValue.obj p.1, p.2) := rfl

set_option maxHeartbeats 1000000 in
theorem parseArrTail_rb (m : Nat) (X : List Char) :
    parseArrTail (m + 1) (']' :: X) = some (.arr .nil, X) := rfl

set_option maxHeartbeats 1000000 in
theorem parseObjTail_rb (m : Nat) (X : List Char) :
    parseObjTail (m + 1) (rbrace :: X) = some (.obj .fnil, X) := rfl

theorem parseItems_succ (m : Nat) (s : List Char) :
    parseItems (m + 1) s =
      match parseVal m s with
      | none => none
      | some (v, r) => parseItemsSep m v r := rfl

set_option maxHeartbeats 1000000 in
theorem parseItemsSep_rsep (m : Nat) (v : JValue) (X : List Char) :
    parseItemsSep (m + 1) v (']' :: X) = some (.cons v .nil, X) := rfl

set_option maxHeartbeats 1000000 in
theorem parseItemsSep_comma (m : Nat) (v : JValue) (X : List Char) :
    parseItemsSep (m + 1) v (',' :: X) =
      match parseItems m X with
      | none => none
      | some (vs, r3) => some (.cons v vs, r3) := rfl

set_option maxHeartbeats 1000000 in
theorem parseFields_quote (m : Nat) (Y : List Char) :
    parseFields (m + 1) ('"' :: Y) =
      match parseStrBody Y with
      | none => none
      | some (k, r2) => parseFieldsColon m k r2 := rfl

set_option maxHeartbeats 1000000 in
theorem parseFieldsColon_colon (m : Nat) (k : List Char) (X : List Char) :
    parseFieldsColon (m + 1) k (':' :: X) =
      match parseVal m X with
      | none => none
      | some (v, r4) => parseFieldsSep m k v r4 := rfl

set_option maxHeartbeats 1000000 in
theorem parseFieldsSep_rb (m : Nat) (k : List Char) (v : JValue) (X : List Char) :
    parseFieldsSep (m + 1) k v (rbrace :: X) = some (.fcons k v .fnil, X) := rfl

set_option maxHeartbeats 1000000 in
theorem parseFieldsSep_comma (m : Nat) (k : List Char) (v : JValue) (X : List Char) :
    parseFieldsSep (m + 1) k v (',' :: X) =
      match parseFields m X with
      | none => none
      | some (fs, r6) => some (.fcons k v fs, r6) := rfl

/-- First character of every serialized value: never whitespace, never a
closing bracket. -/
theorem ser_head (v : JValue) :
    ∃ c cs, ser v = c :: cs ∧ wsB c = false ∧ c ≠ ']' := by
  match v with
  | .null => exact ⟨'n', _, rfl, by decide, by decide⟩
  | .undef => exact ⟨'u', _, rfl, by decide, by decide⟩
  | .bool true => exact ⟨'t', _, rfl, by decide, by decide⟩
  | .bool false => exact ⟨'f', _, rfl, by decide, by decide⟩
  | .num n =>
    by_cases hn : n < 0
    · exact ⟨'-', serNat n.natAbs, by simp [ser, serInt, hn], by decide, by decide⟩
    · obtain ⟨c, cs, hcs⟩ := List.exists_cons_of_ne_nil (serNat_ne_nil n.toNat)
      have hcd : c.isDigit = true := by
        apply serNat_digits (n := n.toNat)
        rw [hcs]
        simp
      refine ⟨c, cs, ?_, wsB_of_isDigit hcd, isDigit_ne hcd (by decide)⟩
      simp [ser, serInt, hn]
      exact hcs
  | .str s => exact ⟨'"', _, rfl, by decide, by decide⟩
  | .arr xs => exact ⟨'[', _, rfl, by decide, by decide⟩
  | .obj fs => exact ⟨lbrace, _, rfl, by decide, by decide⟩

theorem serItems_cons_eq (v : JValue) (tl : JList) :
    serItems (.cons v tl) = ser v ++ serSep tl := by
  cases tl <;> rfl

theorem serFields_cons_eq (k : List Char) (v : JValue) (tl : JFields) :
    serFields (.fcons k v tl) = '"' :: (k ++ '"' :: ':' :: (ser v ++ serFSep tl)) := by
  cases tl <;> rfl

theorem noDigitHead_serSep (tl : JList) (rest : List Char) :
    noDigitHead (serSep tl ++ rest) := by
  cases tl
  · exact noDigitHead_cons (by decide) rest
  · exact noDigitHead_cons (by decide) _

theorem noDigitHead_serFSep (tl : JFields) (rest : List Char) :
    noDigitHead (serFSep tl ++ rest) := by
  cases tl
  · exact noDigitHead_cons (by decide) rest
  · exact noDigitHead_cons (by decide) _

theorem undefFreeL_cons {v : JValue} {tl : JList}
    (h : undefFreeList (.cons v tl) = true) :
    undefFree v = true ∧ undefFreeList tl = true := by
  rw [undefFreeList] at h
  simp only [Bool.and_eq_true] at h
  exact h

theorem undefFreeF_cons {k : List Char} {v : JValue} {tl : JFields}
    (h : undefFreeFields (.fcons k v tl) = true) :
    undefFree v = true ∧ undefFreeFields tl = true := by
  rw [undefFreeFields] at h
  simp only [Bool.and_eq_true] at h
  exact h

theorem strClean_parts {s : List Char} (h : strClean s = true) :
    s.contains '"' = false ∧ s.contains '\\' = false := by
  unfold strClean at h
  simp only [Bool.and_eq_true, Bool.not_eq_true'] at h
  exact ⟨h.1.1, h.1.2⟩

mutual

/-- Roundtrip: the parser recovers every undefined-free clean payload from
its canonical rendering, leaving the continuation untouched. -/
theorem parseVal_ser :
    ∀ v : JValue, undefFree v = true → cleanV v = true →
      ∀ n rest, fuelV v ≤ n → noDigitHead rest →
        parseVal n (ser v ++ rest) = some (v, rest)
  | .null, _, _, n, rest, hf, _ => by
    obtain ⟨m, rfl⟩ : ∃ k, n = k + 1 := ⟨n - 1, by simp [fuelV] at hf; omega⟩
    exact parseVal_succ_null m rest
  | .undef, hu, _, n, rest, _, _ => by
    rw [undefFree] at hu
    exact absurd hu (by simp)
  | .bool true, _, _, n, rest, hf, _ => by
    obtain ⟨m, rfl⟩ : ∃ k, n = k + 1 := ⟨n - 1, by simp [fuelV] at hf; omega⟩
    exact parseVal_succ_true m rest
  | .bool false, _, _, n, rest, hf, _ => by
    obtain ⟨m, rfl⟩ : ∃ k, n = k + 1 := ⟨n - 1, by simp [fuelV] at hf; omega⟩
    exact parseVal_succ_false m rest
  | .str s, _, hcl, n, rest, hf, _ => by
    obtain ⟨m, rfl⟩ : ∃ k, n = k + 1 := ⟨n - 1, by simp [fuelV] at hf; omega⟩
    rw [cleanV] at hcl
    obtain ⟨hq, hb⟩ := strClean_parts hcl
    have he : ser (.str s) ++ rest = '"' :: (s ++ '"' :: rest) := by
      rw [ser]
      simp
    rw [he, parseVal_succ_quote, parseStrBody_append rest hq hb]
    rfl
  | .num j, _, _, n, rest, hf, hr => by
    obtain ⟨m, rfl⟩ : ∃ k, n = k + 1 := ⟨n - 1, by simp [fuelV] at hf; omega⟩
    by_cases hj : j < 0
    · have he : ser (.num j) ++ rest = '-' :: (serNat j.natAbs ++ rest) := by
        rw [ser]
        simp [serInt, hj]
      rw [he, parseVal_succ_neg,
        parseDigits_append (fun c hc => serNat_digits hc) (serNat_ne_nil _) hr]
      show some (JValue.num (-(natOfDigits (serNat j.natAbs) : Int)), rest) =
        some (.num j, rest)
      rw [natOfDigits_serNat]
      have h2 : -((j.natAbs : Nat) : Int) = j := by omega
      rw [h2]
    · obtain ⟨c, cs, hcs⟩ := List.exists_cons_of_ne_nil (serNat_ne_nil j.toNat)
      have hcd : c.isDigit = true := by
        apply serNat_digits (n := j.toNat)
        rw [hcs]
        simp
      have he : ser (.num j) ++ rest = c :: (cs ++ rest) := by
        rw [ser]
        simp [serInt, hj, hcs]
      rw [he, parseVal_digit hcd]
      have he2 : c :: (cs ++ rest) = serNat j.toNat ++ rest := by
        rw [hcs]
        simp
      rw [he2,
        parseDigits_append (fun c hc => serNat_digits hc) (serNat_ne_nil _) hr]
      show some (JValue.num ((natOfDigits (serNat j.toNat) : Nat) : Int), rest) =
        some (.num j, rest)
      rw [natOfDigits_serNat]
      have h2 : ((j.toNat : Nat) : Int) = j := by omega
      rw [h2]
  | .arr .nil, _, _, n, rest, hf, _ => by
    obtain ⟨m, rfl⟩ : ∃ k, n = k + 2 := ⟨n - 2, by simp [fuelV, fuelL] at hf; omega⟩
    have he : ser (.arr .nil) ++ rest = '[' :: (']' :: rest) := by
      rw [ser]
      simp [serItems]
    rw [he, show m + 2 = (m + 1) + 1 from rfl, parseVal_succ_lbrack, parseArrTail_rb]
  | .arr (.cons v tl), hu, hcl, n, rest, hf, hr => by
    rw [undefFree] at hu
    rw [cleanV] at hcl
    obtain ⟨huv, hutl⟩ := undefFreeL_cons hu
    obtain ⟨hcv, hctl⟩ := cleanL_cons hcl
    have hfl : fuelL (.cons v tl) + 2 ≤ n := by
      rw [fuelV] at hf
      omega
    have hl1 : 2 ≤ fuelL (.cons v tl) := by
      rw [fuelL]
      omega
    obtain ⟨m, rfl⟩ : ∃ k, n = k + 2 := ⟨n - 2, by omega⟩
    have he : ser (.arr (.cons v tl)) ++ rest =
        '[' :: (serItems (.cons v tl) ++ rest) := by
      rw [ser]
      simp
    rw [he, show m + 2 = (m + 1) + 1 from rfl, parseVal_succ_lbrack]
    obtain ⟨m1, rfl⟩ : ∃ k, m = k + 1 := ⟨m - 1, by omega⟩
    obtain ⟨c, cs, hser, hws, hnr⟩ := ser_head v
    have he2 : serItems (.cons v tl) ++ rest = c :: (cs ++ (serSep tl ++ rest)) := by
      rw [serItems_cons_eq, hser]
      simp
    rw [show m1 + 1 + 1 = (m1 + 1) + 1 from rfl]
    rw [he2, parseArrTail_head (m1 + 1) _ hws hnr, he2.symm]
    rw [parseItems_ser v tl huv hutl hcv hctl (m1 + 1) rest (by omega) hr]
    rfl
  | .obj .fnil, _, _, n, rest, hf, _ => by
    obtain ⟨m, rfl⟩ : ∃ k, n = k + 2 := ⟨n - 2, by simp [fuelV, fuelF] at hf; omega⟩
    have he : ser (.obj .fnil) ++ rest = lbrace :: (rbrace :: rest) := by
      rw [ser]
      simp [serFields]
    rw [he, show m + 2 = (m + 1) + 1 from rfl, parseVal_lbrace, parseObjTail_rb]
  | .obj (.fcons k v tl), hu, hcl, n, rest, hf, hr => by
    rw [undefFree] at hu
    rw [cleanV] at hcl
    have hff : fuelF (.fcons k v tl) + 2 ≤ n := by
      rw [fuelV] at hf
      omega
    have hf1 : 3 ≤ fuelF (.fcons k v tl) := by
      rw [fuelF]
      omega
    obtain ⟨m, rfl⟩ : ∃ k2, n = k2 + 2 := ⟨n - 2, by omega⟩
    have he : ser (.obj (.fcons k v tl)) ++ rest =
        lbrace :: (serFields (.fcons k v tl) ++ rest) := by
      rw [ser]
      simp
    rw [he, show m + 2 = (m + 1) + 1 from rfl, parseVal_lbrace]
    obtain ⟨m1, rfl⟩ : ∃ k2, m = k2 + 1 := ⟨m - 1, by omega⟩
    have he2 : serFields (.fcons k v tl) ++ rest =
        '"' :: ((k ++ '"' :: ':' :: (ser v ++ serFSep tl)) ++ rest) := by
      rw [serFields_cons_eq, List.cons_append]
    rw [show m1 + 1 + 1 = (m1 + 1) + 1 from rfl]
    rw [he2, parseObjTail_quote, ← List.cons_append, ← serFields_cons_eq]
    rw [parseFields_ser k v tl hu hcl (m1 + 1) rest (by omega) hr]
    rfl
termination_by v _ _ _ _ _ _ => sizeOf v

theorem parseItems_ser :
    ∀ (v : JValue) (tl : JList),
      undefFree v = true → undefFreeList tl = true →
      cleanV v = true → cleanL tl = true →
      ∀ n rest, fuelL (.cons v tl) ≤ n → noDigitHead rest →
        parseItems n (serItems (.cons v tl) ++ rest) = some (.cons v tl, rest)
  | v, tl, hu, hutl, hcv, hctl, n, rest, hn, hr => by
    have hn2 : fuelV v + 2 ≤ n ∧ fuelL tl + 2 ≤ n := by
      rw [fuelL] at hn
      omega
    obtain ⟨m, rfl⟩ : ∃ k, n = k + 1 := ⟨n - 1, by omega⟩
    rw [parseItems_succ, serItems_cons_eq, List.append_assoc,
      parseVal_ser v hu hcv m _ (by omega) (noDigitHead_serSep tl rest)]
    show parseItemsSep m v (serSep tl ++ rest) = some (.cons v tl, rest)
    obtain ⟨m1, rfl⟩ : ∃ k, m = k + 1 := ⟨m - 1, by omega⟩
    cases tl with
    | nil =>
      exact parseItemsSep_rsep m1 v rest
    | cons w tl2 =>
      have he : serSep (.cons w tl2) ++ rest =
          ',' :: (serItems (.cons w tl2) ++ rest) := by
        rw [serSep]
        simp
      rw [he, parseItemsSep_comma]
      obtain ⟨huw, hutl2⟩ := undefFreeL_cons hutl
      obtain ⟨hcw, hctl2⟩ := cleanL_cons hctl
      rw [parseItems_ser w tl2 huw hutl2 hcw hctl2 m1 rest (by omega) hr]
termination_by v tl _ _ _ _ _ _ _ _ => sizeOf v + sizeOf tl + 1

theorem parseFields_ser :
    ∀ (k : List Char) (v : JValue) (tl : JFields),
      undefFreeFields (.fcons k v tl) = true → cleanF (.fcons k v tl) = true →
      ∀ n rest, fuelF (.fcons k v tl) ≤ n → noDigitHead rest →
        parseFields n (serFields (.fcons k v tl) ++ rest) = some (.fcons k v tl, rest)
  | k, v, tl, hu, hcl, n, rest, hn, hr => by
    obtain ⟨huv, hutl⟩ := undefFreeF_cons hu
    obtain ⟨hck, hcv, hctl⟩ := cleanF_cons hcl
    obtain ⟨hq, hb⟩ := strClean_parts hck
    have hn2 : fuelV v + 3 ≤ n ∧ fuelF tl + 3 ≤ n := by
      rw [fuelF] at hn
      omega
    obtain ⟨m, rfl⟩ : ∃ j, n = j + 1 := ⟨n - 1, by omega⟩
    have he : serFields (.fcons k v tl) ++ rest =
        '"' :: (k ++ '"' :: (':' :: (ser v ++ (serFSep tl ++ rest)))) := by
      rw [serFields_cons_eq]
      simp
    rw [he, parseFields_quote, parseStrBody_append _ hq hb]
    show parseFieldsColon m k (':' :: (ser v ++ (serFSep tl ++ rest))) =
      some (.fcons k v tl, rest)
    obtain ⟨m1, rfl⟩ : ∃ j, m = j + 1 := ⟨m - 1, by omega⟩
    rw [parseFieldsColon_colon,
      parseVal_ser v huv hcv m1 _ (by omega) (noDigitHead_serFSep tl rest)]
    show parseFieldsSep m1 k v (serFSep tl ++ rest) = some (.fcons k v tl, rest)
    obtain ⟨m2, rfl⟩ : ∃ j, m1 = j + 1 := ⟨m1 - 1, by omega⟩
    cases tl with
    | fnil =>
      exact parseFieldsSep_rb m2 k v rest
    | fcons k2 w tl2 =>
      have he2 : serFSep (.fcons k2 w tl2) ++ rest =
          ',' :: (serFields (.fcons k2 w tl2) ++ rest) := by
        rw [serFSep]
        simp
      rw [he2, parseFieldsSep_comma]
      rw [parseFields_ser k2 w tl2 hutl hctl m2 rest (by omega) hr]
termination_by k v tl _ _ _ _ _ _ => sizeOf v + sizeOf tl + 1

end

mutual

theorem undefFree_jsToNull : ∀ v : JValue, undefFree (jsToNull v) = true
  | .null => rfl
  | .undef => rfl
  | .bool _ => rfl
  | .num _ => rfl
  | .str _ => rfl
  | .arr xs => by
    rw [jsToNull, undefFree]
    exact undefFreeList_jsToNull xs
  | .obj fs => by
    rw [jsToNull, undefFree]
    exact undefFreeFields_jsToNull fs

theorem undefFreeList_jsToNull : ∀ xs : JList, undefFreeList (jsToNullList xs) = true
  | .nil => rfl
  | .cons v tl => by
    rw [jsToNullList, undefFreeList]
    simp [undefFree_jsToNull v, undefFreeList_jsToNull tl]

theorem undefFreeFields_jsToNull :
    ∀ fs : JFields, undefFreeFields (jsToNullFields fs) = true
  | .fnil => rfl
  | .fcons k v tl => by
    rw [jsToNullFields, undefFreeFields]
    simp [undefFree_jsToNull v, undefFreeFields_jsToNull tl]

end

mutual

theorem cleanV_jsToNull : ∀ v : JValue, cleanV v = true → cleanV (jsToNull v) = true
  | .null, _ => rfl
  | .undef, _ => rfl
  | .bool _, _ => rfl
  | .num _, _ => rfl
  | .str s, h => by
    rw [jsToNull]
    exact h
  | .arr xs, h => by
    rw [jsToNull, cleanV]
    rw [cleanV] at h
    exact cleanL_jsToNull xs h
  | .obj fs, h => by
    rw [jsToNull, cleanV]
    rw [cleanV] at h
    exact cleanF_jsToNull fs h

theorem cleanL_jsToNull : ∀ xs : JList, cleanL xs = true → cleanL (jsToNullList xs) = true
  | .nil, _ => rfl
  | .cons v tl, h => by
    obtain ⟨h1, h2⟩ := cleanL_cons h
    rw [jsToNullList, cleanL]
    simp [cleanV_jsToNull v h1, cleanL_jsToNull tl h2]

theorem cleanF_jsToNull : ∀ fs : JFields, cleanF fs = true → cleanF (jsToNullFields fs) = true
  | .fnil, _ => rfl
  | .fcons k v tl, h => by
    obtain ⟨h1, h2, h3⟩ := cleanF_cons h
    rw [jsToNullFields, cleanF]
    simp [h1, cleanV_jsToNull v h2, cleanF_jsToNull tl h3]

end

mutual

theorem fuelV_le : ∀ v : JValue, fuelV v ≤ 3 * (ser v).length
  | .null => by simp [fuelV, ser]
  | .undef => by simp [fuelV, ser, patU]
  | .bool true => by simp [fuelV, ser]
  | .bool false => by simp [fuelV, ser]
  | .num j => by
    obtain ⟨c, cs, hc, _, _⟩ := ser_head (.num j)
    rw [fuelV, hc]
    simp
    omega
  | .str s => by
    rw [fuelV, ser]
    simp
    omega
  | .arr xs => by
    have h := fuelL_le xs
    rw [fuelV, ser]
    simp only [List.length_cons]
    omega
  | .obj fs => by
    have h := fuelF_le fs
    rw [fuelV, ser]
    simp only [List.length_cons]
    omega

theorem fuelL_le : ∀ xs : JList, fuelL xs ≤ 3 * (serItems xs).length
  | .nil => by simp [fuelL]
  | .cons v tl => by
    have h1 := fuelV_le v
    have h2 := fuelL_le tl
    rw [fuelL, serItems_cons_eq]
    cases tl with
    | nil =>
      have h0 : fuelL JList.nil = 0 := by rw [fuelL]
      simp only [serSep, List.length_append, List.length_cons, List.length_nil]
      omega
    | cons w tl2 =>
      simp only [serSep, List.length_append, List.length_cons]
      omega

theorem fuelF_le : ∀ fs : JFields, fuelF fs ≤ 3 * (serFields fs).length
  | .fnil => by simp [fuelF]
  | .fcons k v tl => by
    have h1 := fuelV_le v
    have h2 := fuelF_le tl
    rw [fuelF, serFields_cons_eq]
    cases tl with
    | fnil =>
      have h0 : fuelF JFields.fnil = 0 := by rw [fuelF]
      simp only [serFSep, List.length_append, List.length_cons, List.length_nil]
      omega
    | fcons k2 w tl2 =>
      simp only [serFSep, List.length_append, List.length_cons]
      omega

end

/-- Composition: text replacement followed by JSON decoding recovers the
payload with every `undefined` read as `null`. -/
theorem decode_fixU_ser {v : JValue} (hc : cleanV v = true) :
    parseJson (fixU (ser v)) = some (jsToNull v) := by
  have h1 : fixU (ser v) = ser (jsToNull v) := by
    have h := fixU_ser v hc [] headSafe_nil
    rw [List.append_nil] at h
    rw [h, show fixU [] = [] from rfl, List.append_nil]
  rw [h1]
  have hw : undefFree (jsToNull v) = true := undefFree_jsToNull v
  have hcw : cleanV (jsToNull v) = true := cleanV_jsToNull v hc
  unfold parseJson
  have hfuel : fuelV (jsToNull v) ≤ 3 * (ser (jsToNull v)).length + 3 := by
    have := fuelV_le (jsToNull v)
    omega
  have hp := parseVal_ser (jsToNull v) hw hcw
    (3 * (ser (jsToNull v)).length + 3) [] hfuel noDigitHead_nil
  rw [List.append_nil] at hp
  rw [hp]
  simp [skipWs]

theorem isPrefixOf_eq_false_of_not {p s : List Char} (h : ¬ p <+: s) :
    p.isPrefixOf s = false := by
  cases hb : p.isPrefixOf s with
  | false => rfl
  | true => exact absurd ( List.isPrefixOf_iff_prefix.mp hb) h

theorem douyinSearch_none {text : List Char}
    (h : containsSub text routerMarker = false) : douyinSearch text = none := by
  induction text with
  | nil => rfl
  | cons c t ih =>
    have hno := not_occurs_of_containsSub_eq_false h
    have hat : douyinAt (c :: t) = none := by
      unfold douyinAt
      rw [isPrefixOf_eq_false_of_not (by simpa using hno 0)]
      rfl
    rw [douyinSearch, hat, ih (containsSub_tail h)]

theorem xhsSearch_none {html : List Char}
    (h : containsSub html xhsMarker = false) : xhsSearch html = none := by
  induction html with
  | nil => rfl
  | cons c t ih =>
    have hno := not_occurs_of_containsSub_eq_false h
    have hat : xhsAt (c :: t) = none := by
      unfold xhsAt
      rw [isPrefixOf_eq_false_of_not (by simpa using hno 0)]
      rfl
    rw [xhsSearch, hat, ih (containsSub_tail h)]

/-- Two sorted lists of index-tagged values that are permutations of each
other and have pairwise-distinct indices are equal. -/
theorem sorted_perm_nodup_eq {α : Type} :
    ∀ (l₁ l₂ : List (Nat × α)), l₁.Perm l₂ →
      l₁.Sorted (fun p q => p.1 ≤ q.1) → l₂.Sorted (fun p q => p.1 ≤ q.1) →
      (l₂.map Prod.fst).Nodup → l₁ = l₂
  | [], l₂, hp, _, _, _ => (hp.nil_eq).symm ▸ rfl
  | a :: t₁, [], hp, _, _, _ => absurd hp.symm.nil_eq (by simp)
  | a :: t₁, b :: t₂, hp, hs₁, hs₂, hnd => by
    rw [List.map_cons] at hnd
    by_cases hab : a = b
    · subst hab
      have ht := hp.cons_inv
      rw [sorted_perm_nodup_eq t₁ t₂ ht (List.sorted_cons.mp hs₁).2
        (List.sorted_cons.mp hs₂).2 (List.nodup_cons.mp hnd).2]
    · exfalso
      have ha2 : a ∈ t₂ := by
        have := hp.subset (List.mem_cons_self a t₁)
        rcases List.mem_cons.mp this with he | hm
        · exact absurd he hab
        · exact hm
      have hb1 : b ∈ t₁ := by
        have := hp.symm.subset (List.mem_cons_self b t₂)
        rcases List.mem_cons.mp this with he | hm
        · exact absurd he.symm hab
        · exact hm
      have h1 : a.1 ≤ b.1 := (List.sorted_cons.mp hs₁).1 b hb1
      have h2 : b.1 ≤ a.1 := (List.sorted_cons.mp hs₂).1 a ha2
      have heq : b.1 = a.1 := le_antisymm h2 h1
      have hmem : b.1 ∈ t₂.map Prod.fst := heq ▸ List.mem_map_of_mem Prod.fst ha2
      exact (List.nodup_cons.mp hnd).1 hmem

theorem indexedResults_sorted (urls : List String) (conv : Nat → Option (List Nat)) :
    (indexedResults urls conv).Sorted (fun p q => p.1 ≤ q.1) := by
  unfold indexedResults List.Sorted
  rw [List.pairwise_map]
  exact (List.pairwise_lt_range _).imp fun h => le_of_lt h

theorem indexedResults_nodup_fst (urls : List String) (conv : Nat → Option (List Nat)) :
    ((indexedResults urls conv).map Prod.fst).Nodup := by
  unfold indexedResults
  rw [List.map_map]
  have hid : (Prod.fst ∘ fun i => (i, conv i)) = id := rfl
  rw [hid, List.map_id]
  exact List.nodup_range _

theorem sortByIdx_of_perm {urls : List String} {conv : Nat → Option (List Nat)}
    {results : List (Nat × Option (List Nat))}
    (hperm : results.Perm (indexedResults urls conv)) :
    sortByIdx results = indexedResults urls conv := by
  apply sorted_perm_nodup_eq
  · exact (List.perm_insertionSort _ results).trans hperm
  · exact List.sorted_insertionSort _ results
  · exact indexedResults_sorted urls conv
  · exact indexedResults_nodup_fst urls conv

theorem buildImageSources_of_perm {urls : List String} {conv : Nat → Option (List Nat)}
    {results : List (Nat × Option (List Nat))}
    (hperm : results.Perm (indexedResults urls conv)) :
    buildImageSources urls results =
      (List.range urls.length).map fun i => pickSource urls (i, conv i) := by
  unfold buildImageSources
  rw [sortByIdx_of_perm hperm]
  unfold indexedResults
  rw [List.map_map]
  rfl

theorem buildImageSources_length {urls : List String} {conv : Nat → Option (List Nat)}
    {results : List (Nat × Option (List Nat))}
    (hperm : results.Perm (indexedResults urls conv)) :
    (buildImageSources urls results).length = urls.length := by
  rw [buildImageSources_of_perm hperm]
  simp

/-! ## C1 -/
/-- C1: for every list of image source URLs fed to the image-conversion
stage shared by `parse_video`, `parse_slides`, `parse_explore` and
`parse_discovery`, where an arbitrary subset of the per-URL conversions
fail, the assembled `image_sources` sequence has the input's length and
element `i` is the converted JPEG bytes when conversion of URL `i`
succeeded (JPEG bytes are non-empty) and the original URL string
`image_urls[i]` when it failed — for every completion order, modelled as
an arbitrary permutation of the index-tagged outcomes. -/
theorem c1_image_normalization_order (urls : List String)
    (conv : Nat → Option (List Nat)) (results : List (Nat × Option (List Nat)))
    (hperm : results.Perm (indexedResults urls conv))
    (hne : ∀ i d, conv i = some d → d ≠ []) :
    (buildImageSources urls results).length = urls.length ∧
    ∀ i, i < urls.length →
      (buildImageSources urls results).getD i (.url "") =
        match conv i with
        | some d => ImageSource.jpg d
        | none => ImageSource.url (urls.getD i "") := by
  refine ⟨buildImageSources_length hperm, ?_⟩
  intro i hi
  rw [buildImageSources_of_perm hperm, List.getD_eq_getElem?_getD,
    List.getElem?_map, List.getElem?_range hi]
  cases hconv : conv i with
  | none => simp [pickSource, hconv]
  | some d =>
    have hd : d.isEmpty = false := by
      cases d with
      | nil => exact absurd rfl (hne i [] hconv)
      | cons x t => rfl
    simp [pickSource, hconv, hd]
    exact hne i d hconv

/-- Witness for C1 at three URLs with the middle conversion failing and
the outcomes arriving out of order. -/
theorem c1_witness :
    c1results.Perm (indexedResults ["a", "b", "c"] c1conv) ∧
    (buildImageSources ["a", "b", "c"] c1results).length = 3 ∧
    (buildImageSources ["a", "b", "c"] c1results).getD 0 (.url "") = .jpg [1] ∧
    (buildImageSources ["a", "b", "c"] c1results).getD 1 (.url "") = .url "b" ∧
    (buildImageSources ["a", "b", "c"] c1results).getD 2 (.url "") = .jpg [2, 3] := by
  have hne : ∀ i d, c1conv i = some d → d ≠ [] := by
    intro i d h
    match i with
    | 0 =>
      injection h with h
      subst h
      simp
    | 1 => exact Option.noConfusion h
    | 2 =>
      injection h with h
      subst h
      simp
    | n + 3 => exact Option.noConfusion h
  have hperm : c1results.Perm (indexedResults ["a", "b", "c"] c1conv) := by decide
  have h := c1_image_normalization_order ["a", "b", "c"] c1conv c1results hperm hne
  refine ⟨hperm, h.1, ?_, ?_, ?_⟩
  · have := h.2 0 (by decide)
    simpa using this
  · have := h.2 1 (by decide)
    simpa using this
  · have := h.2 2 (by decide)
    simpa using this

/-- C3 counterexample: on a body whose state blob is not valid JSON, the
first strategy's `parse_video` raises a decode error (the msgspec
exception, which is not a `ParseException`); `_parse_douyin` does not
catch it and the second strategy is never attempted — the trace holds only
the m.douyin URL. -/
theorem c3_counterexample :
    parse_douyin_main (parse_video c3env decodeRouterData fun _ => none) "video" "1" =
      (["https://m.douyin.com/share/video/1"],
        .error (.decode "msgspec: JSON is malformed")) ∧
    "https://www.iesdouyin.com/share/video/1" ∉
      (parse_douyin_main (parse_video c3env decodeRouterData fun _ => none)
        "video" "1").1 := by
  constructor
  · rfl
  · rw [show (parse_douyin_main (parse_video c3env decodeRouterData fun _ => none)
      "video" "1").1 = ["https://m.douyin.com/share/video/1"] from rfl]
    decide

/-- C3 amended: inside `_parse_douyin`'s loop only `ParseException`-kind
errors are caught and advance the chain; `parse_video`'s non-200 status
and missing-marker failures are of that kind, while msgspec/json decode
errors are a different exception kind that propagates to the caller at
once rather than advancing to the next strategy. -/
theorem c3_amended :
    (∀ (step : String → Except Err ParsedResult) u rest m,
      step u = .error (.parse m) →
      runChainTrace step (u :: rest) =
        (u :: (runChainTrace step rest).1, (runChainTrace step rest).2)) ∧
    (∀ (step : String → Except Err ParsedResult) u rest m,
      step u = .error (.decode m) →
      runChainTrace step (u :: rest) = ([u], .error (.decode m))) ∧
    (∀ env dec conv url, (env url).status ≠ 200 →
      parse_video env dec conv url =
        .error (.parse ("status: " ++ toString (env url).status))) ∧
    (∀ env dec conv url, containsSub (env url).text routerMarker = false →
      (env url).status = 200 →
      parse_video env dec conv url =
        .error (.parse "can't find _ROUTER_DATA in html")) := by
  refine ⟨?_, ?_, ?_, ?_⟩
  · intro step u rest m h
    simp [runChainTrace, h]
  · intro step u rest m h
    simp [runChainTrace, h]
  · intro env dec conv url h
    simp [parse_video, h]
  · intro env dec conv url hocc hst
    unfold parse_video
    rw [if_neg (by omega)]
    unfold douyinExtract
    rw [douyinSearch_none hocc]

/-- Witness for C3 amended at a parse-failing and a decode-failing step
and at concrete fetch outcomes. -/
theorem c3_witness :
    runChainTrace (fun _ => .error (.parse "x")) ["u1", "u2"] =
      ("u1" :: (runChainTrace (fun _ => .error (.parse "x")) ["u2"]).1,
        (runChainTrace (fun _ => .error (.parse "x")) ["u2"]).2) ∧
    runChainTrace (fun _ => .error (.decode "y")) ["u1", "u2"] =
      (["u1"], .error (.decode "y")) ∧
    parse_video (fun _ => ⟨404, []⟩) decodeRouterData (fun _ => none) "u" =
      .error (.parse "status: 404") ∧
    parse_video (fun _ => ⟨200, "<html></html>".toList⟩) decodeRouterData
      (fun _ => none) "u" = .error (.parse "can't find _ROUTER_DATA in html") := by
  refine ⟨?_, ?_, ?_, ?_⟩
  · exact c3_amended.1 _ "u1" ["u2"] "x" rfl
  · exact c3_amended.2.1 _ "u1" ["u2"] "y" rfl
  · exact c3_amended.2.2.1 _ decodeRouterData (fun _ => none) "u" (by decide)
  · exact c3_amended.2.2.2 _ decodeRouterData (fun _ => none) "u" (by decide) rfl

/-! ## C4 -/
/-- C4: for the douyin main-link resolver with a non-slides type, when both
configured strategies fail with a `ParseException`, exactly the two
strategies are attempted, in the fixed order m.douyin then iesdouyin, and
only then is the final `ParseException` raised. -/
theorem c4_exhaustive_attempts (step : String → Except Err ParsedResult)
    (ty vid : String) (hty : ty ≠ "slides") (m₁ m₂ : String)
    (h1 : step (_build_m_douyin_url ty vid) = .error (.parse m₁))
    (h2 : step (_build_iesdouyin_url ty vid) = .error (.parse m₂)) :
    _parse_douyin step ty vid =
      .main [_build_m_douyin_url ty vid, _build_iesdouyin_url ty vid]
        (.error (.parse douyinFinalMsg)) := by
  unfold _parse_douyin
  rw [if_neg hty]
  unfold parse_douyin_main douyinUrlChain
  simp [runChainTrace, h1, h2]

/-- Witness for C4: both URLs respond 404, the chain performs exactly two
attempts and raises the final error. -/
theorem c4_witness :
    _parse_douyin (fun _ => .error (.parse "status: 404")) "video" "7" =
      .main ["https://m.douyin.com/share/video/7",
        "https://www.iesdouyin.com/share/video/7"]
        (.error (.parse douyinFinalMsg)) :=
  c4_exhaustive_attempts (fun _ => .error (.parse "status: 404")) "video" "7"
    (by decide) "status: 404" "status: 404" rfl rfl

/-- C5: the fallback chains short-circuit on first success — in
`_parse_douyin`, a success of `parse_video` on the m.douyin URL means the
iesdouyin URL is never tried (the trace holds only the first URL); in
`_parse_discovery`, a success of `parse_explore` means `parse_discovery`
is never called. -/
theorem c5_short_circuit :
    (∀ (step : String → Except Err ParsedResult) ty vid r,
      step (_build_m_douyin_url ty vid) = .ok r →
      parse_douyin_main step ty vid = ([_build_m_douyin_url ty vid], .ok r)) ∧
    (∀ (discovery : Unit → Except Err ParsedResult) r,
      parse_discovery_route (.ok r) discovery = (false, .ok r)) := by
  constructor
  · intro step ty vid r h
    unfold parse_douyin_main douyinUrlChain
    simp [runChainTrace, h]
  · intro discovery r
    rfl

/-- Witness for C5: a first strategy that succeeds outright. -/
theorem c5_witness :
    parse_douyin_main (fun _ => .ok c5result) "note" "9" =
      (["https://m.douyin.com/share/note/9"], .ok c5result) ∧
    parse_discovery_route (.ok c5result) (fun _ => .error (.parse "never")) =
      (false, .ok c5result) :=
  ⟨c5_short_circuit.1 (fun _ => .ok c5result) "note" "9" c5result rfl,
    c5_short_circuit.2 (fun _ => .error (.parse "never")) c5result⟩

/-- C2 counterexample: in `parse_video`, when the extracted `video_data`
has both a non-empty image list and a resolved video URL, the assembled
contents are standalone image contents and contain no video at all — the
image branch, not the video, takes precedence. -/
theorem c2_counterexample :
    c2vd.video_url = some "v" ∧
    douyinVideoContents c2vd (indexedResults c2vd.image_urls fun _ => some [7]) =
      [Content.image (.jpg [7])] := by
  constructor
  · rfl
  · rfl

/-- C2 amended: in `parse_explore` and `parse_discovery` a resolved truthy
video selection takes precedence, producing exactly one video content
(with the first image URL as its cover) and no standalone image contents,
and otherwise the normalized image sequence is emitted; in `parse_slides`
dynamic contents are appended after the image sequence; but in douyin's
`parse_video` the image branch takes precedence — video content is emitted
only when `image_urls` is empty and `video_url` is a truthy string. -/
theorem c2_amended :
    (∀ vd results, vd.image_urls ≠ [] →
      douyinVideoContents vd results =
        create_image_contents (buildImageSources vd.image_urls results)) ∧
    (∀ vd results u, vd.image_urls = [] → vd.video_url = some u → u ≠ "" →
      douyinVideoContents vd results =
        [Content.video (.str u.toList) vd.cover_url
          (match vd.video with
           | some x => x.duration
           | none => 0)]) ∧
    (∀ nd results vu, NoteDetail.video_url nd = .ok vu → pyTruthyOpt vu = true →
      parse_explore_contents nd results =
        .ok [Content.video (vu.getD .null) (NoteDetail.image_urls nd).head? 0]) ∧
    (∀ nd results vu, NoteDetail.video_url nd = .ok vu → pyTruthyOpt vu = false →
      NoteDetail.image_urls nd ≠ [] →
      parse_explore_contents nd results =
        .ok (create_image_contents
          (buildImageSources (NoteDetail.image_urls nd) results))) ∧
    (∀ sd results, sd.image_urls ≠ [] → sd.dynamic_urls ≠ [] →
      parse_slides_contents sd results =
        create_image_contents (buildImageSources sd.image_urls results) ++
          create_dynamic_contents sd.dynamic_urls) ∧
    (∀ nd preload results vu c tl, NoteData.video_url nd = .ok vu →
      pyTruthyOpt vu = true →
      (match preload with
       | some p => NormalNotePreloadData.image_urls p
       | none => NoteData.image_urls nd) = c :: tl →
      parse_discovery_contents nd preload results =
        .ok [Content.video (vu.getD .null) (some c) 0]) := by
  refine ⟨?_, ?_, ?_, ?_, ?_, ?_⟩
  · intro vd results h
    simp [douyinVideoContents, h]
  · intro vd results u h hu hne
    simp [douyinVideoContents, h, hu, hne]
  · intro nd results vu h ht
    simp [parse_explore_contents, h, ht]
  · intro nd results vu h ht hne
    simp [parse_explore_contents, h, ht, hne]
  · intro sd results h1 h2
    simp [parse_slides_contents, h1, h2]
  · intro nd preload results vu c tl h ht hurls
    simp [parse_discovery_contents, h, ht, hurls]

/-- Witness for C2 amended at concrete douyin, explore and slides data. -/
theorem c2_witness :
    douyinVideoContents c2vd (indexedResults c2vd.image_urls fun _ => some [7]) =
      create_image_contents
        (buildImageSources c2vd.image_urls
          (indexedResults c2vd.image_urls fun _ => some [7])) ∧
    parse_explore_contents c2nd [] =
      .ok [Content.video (.str "m".toList) (some "i0") 0] ∧
    parse_slides_contents c2sd (indexedResults c2sd.image_urls fun _ => none) =
      create_image_contents
        (buildImageSources c2sd.image_urls
          (indexedResults c2sd.image_urls fun _ => none)) ++
        create_dynamic_contents c2sd.dynamic_urls := by
  refine ⟨?_, ?_, ?_⟩
  · exact c2_amended.1 c2vd _ (by decide)
  · have h := c2_amended.2.2.1 c2nd [] (some (.str "m".toList)) rfl rfl
    simpa using h
  · exact c2_amended.2.2.2.2.1 c2sd _ (by decide) (by decide)

/-- C6 counterexample: on a state blob that yields no media at all,
`parse_video` returns a success result whose `contents` is the empty
list — nothing rejects a zero-content result. -/
theorem c6_counterexample :
    parse_video c6env decodeRouterData (fun _ => none) "u" =
      .ok { title := "", text := none
          , author := { name := "", avatar := none }
          , contents := [], timestamp := some 0 } := by
  rfl

/-- C6 amended: `parse_video` can return a success result with empty
contents when the extracted `video_data` has neither images nor a truthy
video URL; contents are non-empty exactly when some media item is present:
in `parse_video` when `image_urls` is non-empty or `video_url` is a
non-empty string, and in `parse_explore` when the note has a non-empty
image list or a truthy video selection. -/
theorem c6_amended :
    (∀ vd conv, vd.image_urls ≠ [] →
      douyinVideoContents vd (indexedResults vd.image_urls conv) ≠ []) ∧
    (∀ vd results u, vd.image_urls = [] → vd.video_url = some u → u ≠ "" →
      douyinVideoContents vd results ≠ []) ∧
    (∀ nd conv cs, nd.imageList ≠ [] →
      parse_explore_contents nd (indexedResults (NoteDetail.image_urls nd) conv) =
        .ok cs → cs ≠ []) ∧
    (∀ nd results vu cs, NoteDetail.video_url nd = .ok vu →
      pyTruthyOpt vu = true → parse_explore_contents nd results = .ok cs →
      cs ≠ []) := by
  refine ⟨?_, ?_, ?_, ?_⟩
  · intro vd conv h
    rw [douyinVideoContents, if_pos h]
    have hlen : (buildImageSources vd.image_urls
        (indexedResults vd.image_urls conv)).length = vd.image_urls.length :=
      buildImageSources_length (List.Perm.refl _)
    intro hnil
    rw [create_image_contents] at hnil
    have := List.map_eq_nil.mp hnil
    rw [this] at hlen
    exact h (List.length_eq_zero.mp hlen.symm)
  · intro vd results u h hu hne
    rw [douyinVideoContents, if_neg (by simp [h]), hu]
    simp [hne]
  · intro nd conv cs him hok
    have hurls : NoteDetail.image_urls nd ≠ [] := by
      unfold NoteDetail.image_urls
      simp [him]
    cases hvu : NoteDetail.video_url nd with
    | error e =>
      simp [parse_explore_contents, hvu] at hok
    | ok vu =>
      by_cases ht : pyTruthyOpt vu = true
      · simp [parse_explore_contents, hvu, ht] at hok
        rw [← hok]
        simp
      · simp [parse_explore_contents, hvu, ht, hurls] at hok
        rw [← hok]
        intro hnil
        rw [create_image_contents] at hnil
        have h2 := List.map_eq_nil.mp hnil
        have hlen : (buildImageSources (NoteDetail.image_urls nd)
            (indexedResults (NoteDetail.image_urls nd) conv)).length =
            (NoteDetail.image_urls nd).length :=
          buildImageSources_length (List.Perm.refl _)
        rw [h2] at hlen
        exact hurls (List.length_eq_zero.mp hlen.symm)
  · intro nd results vu cs hvu ht hok
    simp [parse_explore_contents, hvu, ht] at hok
    rw [← hok]
    simp

/-- Witness for C6 amended at concrete data for each branch. -/
theorem c6_witness :
    douyinVideoContents c2vd (indexedResults c2vd.image_urls fun _ => none) ≠ [] ∧
    douyinVideoContents { c2vd with image_urls := [] } [] ≠ [] ∧
    ([Content.video (.str "m".toList) (some "i0") 0] : List Content) ≠ [] := by
  refine ⟨?_, ?_, ?_⟩
  · exact c6_amended.1 c2vd _ (by decide)
  · exact c6_amended.2.1 { c2vd with image_urls := [] } [] "v" rfl rfl (by decide)
  · exact c6_amended.2.2.2 c2nd [] (some (.str "m".toList))
      [Content.video (.str "m".toList) (some "i0") 0] rfl rfl rfl

/-! ## C7 -/
/-- C7 counterexample: on a body lacking `window.__INITIAL_STATE__`,
`_extract_initial_state_json` does raise a `ParseException`, but its
message is a fixed notice that does not include the marker name. -/
theorem c7_counterexample :
    _extract_initial_state_json "<html>nothing here</html>".toList =
      .error (.parse "小红书分享链接失效或内容已删除") ∧
    containsSub "小红书分享链接失效或内容已删除".toList
      "__INITIAL_STATE__".toList = false := by
  constructor
  · rfl
  · decide

/-- C7 amended: on a body lacking the anchor marker both extractors raise
a `ParseException`; the douyin message includes the marker name
`_ROUTER_DATA`, while the xiaohongshu message is a fixed notice that does
not name the marker. -/
theorem c7_amended :
    (∀ text, containsSub text routerMarker = false →
      douyinExtract text = .error (.parse "can't find _ROUTER_DATA in html")) ∧
    containsSub "can't find _ROUTER_DATA in html".toList
      "_ROUTER_DATA".toList = true ∧
    (∀ html, containsSub html xhsMarker = false →
      _extract_initial_state_json html =
        .error (.parse "小红书分享链接失效或内容已删除")) := by
  refine ⟨?_, by decide, ?_⟩
  · intro text h
    unfold douyinExtract
    rw [douyinSearch_none h]
  · intro html h
    unfold _extract_initial_state_json
    rw [xhsSearch_none h]

/-- Witness for C7 amended at concrete marker-free bodies. -/
theorem c7_witness :
    douyinExtract "<html>no data</html>".toList =
      .error (.parse "can't find _ROUTER_DATA in html") ∧
    _extract_initial_state_json "<body>empty</body>".toList =
      .error (.parse "小红书分享链接失效或内容已删除") :=
  ⟨c7_amended.1 "<html>no data</html>".toList (by decide),
    c7_amended.2.2 "<body>empty</body>".toList (by decide)⟩

/-- C8 counterexample: decoding fails on a payload whose required fields
are all present with the right types, because a present *optional* field
(`imageList`) is mistyped — so failure is not limited to required
fields. -/
theorem c8_counterexample :
    decodeNoteDetail (.obj c8fields) = .error "expected list" ∧
    JFields.lookupKey "type".toList c8fields = some (.str "normal".toList) ∧
    JFields.lookupKey "title".toList c8fields = some (.str "t".toList) ∧
    JFields.lookupKey "desc".toList c8fields = some (.str "d".toList) ∧
    decodeUser (.obj (.fcons "nickname".toList (.str "n".toList)
      (.fcons "avatar".toList (.str "a".toList) .fnil))) = .ok ⟨"n", "a"⟩ := by
  refine ⟨rfl, rfl, rfl, rfl, rfl⟩

theorem lookupKey_skip {sk k : List Char} (h : k ≠ sk) (v : JValue) (fs : JFields) :
    JFields.lookupKey sk (.fcons k v fs) = JFields.lookupKey sk fs := by
  rw [JFields.lookupKey, if_neg h]

theorem decodeNoteDetail_obj (fs : JFields) :
    decodeNoteDetail (.obj fs) =
      (do
        let ty ← reqField fs "type" decodeStr
        let ti ← reqField fs "title" decodeStr
        let de ← reqField fs "desc" decodeStr
        let us ← reqField fs "user" decodeUser
        let il ← optField fs "imageList" (decodeListOf decodeExploreImage) []
        let vi ← optField fs "video" decodeVideoOrNull none
        Except.ok ⟨ty, ti, de, us, il, vi⟩) := rfl

theorem reqField_skip {α : Type} {k : List Char} {sk : String} (h : k ≠ sk.toList)
    (v : JValue) (fs : JFields) (f : JValue → Except String α) :
    reqField (.fcons k v fs) sk f = reqField fs sk f := by
  unfold reqField
  rw [lookupKey_skip h]

theorem optField_skip {α : Type} {k : List Char} {sk : String} (h : k ≠ sk.toList)
    (v : JValue) (fs : JFields) (f : JValue → Except String α) (d : α) :
    optField (.fcons k v fs) sk f d = optField fs sk f d := by
  unfold optField
  rw [lookupKey_skip h]

/-- C8 amended: decoding the `NoteDetail` schema ignores unknown fields
(prepending a field with a key outside the schema never changes the
result), applies the declared defaults when the optional fields are
omitted (`imageList` to the empty list, `video` to `None`), and fails
whenever a required field (`type`, `title`, `desc`, `user`) is missing —
but failure is not limited to required fields: a mistyped present optional
field also fails (see the counterexample). -/
theorem c8_amended :
    (∀ (k : List Char) (v : JValue) (fs : JFields),
      k ≠ "type".toList → k ≠ "title".toList → k ≠ "desc".toList →
      k ≠ "user".toList → k ≠ "imageList".toList → k ≠ "video".toList →
      decodeNoteDetail (.obj (.fcons k v fs)) = decodeNoteDetail (.obj fs)) ∧
    (∀ ty ti de n a : List Char,
      decodeNoteDetail (.obj
        (.fcons "type".toList (.str ty)
          (.fcons "title".toList (.str ti)
            (.fcons "desc".toList (.str de)
              (.fcons "user".toList
                (.obj (.fcons "nickname".toList (.str n)
                  (.fcons "avatar".toList (.str a) .fnil))) .fnil))))) =
        .ok { type := ty.asString, title := ti.asString, desc := de.asString
            , user := ⟨n.asString, a.asString⟩, imageList := [], video := none }) ∧
    (∀ fs : JFields, JFields.lookupKey "type".toList fs = none →
      decodeNoteDetail (.obj fs) =
        .error "Object missing required field type") := by
  refine ⟨?_, ?_, ?_⟩
  · intro k v fs h1 h2 h3 h4 h5 h6
    rw [decodeNoteDetail_obj, decodeNoteDetail_obj,
      reqField_skip h1, reqField_skip h2, reqField_skip h3, reqField_skip h4,
      optField_skip h5, optField_skip h6]
  · intro ty ti de n a
    rfl
  · intro fs h
    rw [decodeNoteDetail_obj]
    unfold reqField
    rw [h]
    rfl

/-- Witness for C8 amended: an unknown extra field is ignored, omitted
optional fields default, a payload without `type` fails. -/
theorem c8_witness :
    decodeNoteDetail (.obj (.fcons "unknownField".toList (.num 3) c8fields)) =
      decodeNoteDetail (.obj c8fields) ∧
    decodeNoteDetail (.obj
      (.fcons "type".toList (.str "normal".toList)
        (.fcons "title".toList (.str "t".toList)
          (.fcons "desc".toList (.str "d".toList)
            (.fcons "user".toList
              (.obj (.fcons "nickname".toList (.str "n".toList)
                (.fcons "avatar".toList (.str "a".toList) .fnil))) .fnil))))) =
      .ok { type := "normal", title := "t", desc := "d"
          , user := ⟨"n", "a"⟩, imageList := [], video := none } ∧
    decodeNoteDetail (.obj (.fcons "title".toList (.str "t".toList) .fnil)) =
      .error "Object missing required field type" := by
  refine ⟨?_, ?_, ?_⟩
  · exact c8_amended.1 "unknownField".toList (.num 3) c8fields (by decide)
      (by decide) (by decide) (by decide) (by decide) (by decide)
  · exact c8_amended.2.1 "normal".toList "t".toList "d".toList "n".toList "a".toList
  · exact c8_amended.2.2 (.fcons "title".toList (.str "t".toList) .fnil) rfl

/-- C9: `_extract_initial_state_json` replaces every occurrence of
`undefined` — including inside JSON string values, so a valid payload can
decode to string fields that differ from the original text — and on any
clean payload (no `undefined`, quote or backslash inside string literals)
the replace-then-`json.loads` pipeline equals the JSON decoding of the
payload with JavaScript `undefined` read as `null`. -/
theorem c9_replace_semantics :
    (_extract_initial_state_json c9html =
        .ok (.obj (.fcons "desc".toList (.str "xnully".toList) .fnil)) ∧
      parseJson "\x7b\"desc\":\"xundefinedy\"\x7d".toList =
        some (.obj (.fcons "desc".toList (.str "xundefinedy".toList) .fnil)) ∧
      "xnully".toList ≠ "xundefinedy".toList) ∧
    (∀ v : JValue, cleanV v = true →
      parseJson (fixU (ser v)) = some (jsToNull v)) := by
  refine ⟨⟨rfl, rfl, by decide⟩, ?_⟩
  intro v hc
  exact decode_fixU_ser hc

/-- Witness for C9 at a payload holding an `undefined` member, a string
containing a prefix of the pattern, and a negative number. -/
theorem c9_witness :
    cleanV c9v = true ∧ parseJson (fixU (ser c9v)) = some (jsToNull c9v) :=
  ⟨by decide, c9_replace_semantics.2 c9v (by decide)⟩

/-! ## C10 -/
/-- C10: `Video.video_url` selects the stream in the fixed preference
order h265, h264, av1, h266 — it reads `masterUrl` of the first element of
the first present-and-non-empty list and returns `None` when all four are
absent or empty — and the explore/discovery assemblies emit a video
content only when the note's type is `"video"` and the selection is
non-None. -/
theorem c10_codec_selection :
    (∀ v : Video,
      (match firstNonEmptyStream v.media.stream with
       | some d => Video.video_url v = (masterUrlOf d).map some
       | none => Video.video_url v = .ok none)) ∧
    (∀ nd results cs u cover dur, parse_explore_contents nd results = .ok cs →
      Content.video u cover dur ∈ cs →
      nd.type = "video" ∧ ∃ jv, NoteDetail.video_url nd = .ok (some jv)) ∧
    (∀ nd preload results cs u cover dur,
      parse_discovery_contents nd preload results = .ok cs →
      Content.video u cover dur ∈ cs →
      nd.type = "video" ∧ ∃ jv, NoteData.video_url nd = .ok (some jv)) := by
  refine ⟨?_, ?_, ?_⟩
  · intro v
    unfold firstNonEmptyStream Video.video_url
    cases h5 : streamPick v.media.stream.h265 with
    | some d => simp [List.findSome?, h5]
    | none =>
      cases h4 : streamPick v.media.stream.h264 with
      | some d => simp [List.findSome?, h5, h4]
      | none =>
        cases ha : streamPick v.media.stream.av1 with
        | some d => simp [List.findSome?, h5, h4, ha]
        | none =>
          cases h6 : streamPick v.media.stream.h266 with
          | some d => simp [List.findSome?, h5, h4, ha, h6]
          | none => simp [List.findSome?, h5, h4, ha, h6]
  · intro nd results cs u cover dur hok hmem
    cases hvu : NoteDetail.video_url nd with
    | error e => simp [parse_explore_contents, hvu] at hok
    | ok vu =>
      by_cases ht : pyTruthyOpt vu = true
      · cases vu with
        | none => exact absurd ht (by simp [pyTruthyOpt])
        | some jv =>
          refine ⟨?_, jv, rfl⟩
          unfold NoteDetail.video_url at hvu
          cases hv : nd.video with
          | none =>
            rw [hv] at hvu
            simp at hvu
          | some vid0 =>
            by_cases hty : nd.type = "video"
            · exact hty
            · rw [hv] at hvu
              simp [hty] at hvu
      · by_cases him : NoteDetail.image_urls nd ≠ []
        · simp [parse_explore_contents, hvu, ht, him] at hok
          subst hok
          simp [create_image_contents] at hmem
        · simp [parse_explore_contents, hvu, ht, him] at hok
          subst hok
          simp at hmem
  · intro nd preload results cs u cover dur hok hmem
    cases hvu : NoteData.video_url nd with
    | error e => simp [parse_discovery_contents, hvu] at hok
    | ok vu =>
      by_cases ht : pyTruthyOpt vu = true
      · cases vu with
        | none => exact absurd ht (by simp [pyTruthyOpt])
        | some jv =>
          refine ⟨?_, jv, rfl⟩
          unfold NoteData.video_url at hvu
          cases hv : nd.video with
          | none =>
            rw [hv] at hvu
            simp at hvu
          | some vid0 =>
            by_cases hty : nd.type = "video"
            · exact hty
            · rw [hv] at hvu
              simp [hty] at hvu
      · by_cases him : NoteData.image_urls nd ≠ []
        · simp [parse_discovery_contents, hvu, ht, him] at hok
          subst hok
          simp [create_image_contents] at hmem
        · simp [parse_discovery_contents, hvu, ht, him] at hok
          subst hok
          simp at hmem

/-- Witness for C10: a note whose h265 stream carries a master URL yields
one video content, and the selection facts follow from the theorem. -/
theorem c10_witness :
    Video.video_url c2video = .ok (some (.str "m".toList)) ∧
    (c2nd.type = "video" ∧
      ∃ jv, NoteDetail.video_url c2nd = .ok (some jv)) := by
  constructor
  · rfl
  · exact c10_codec_selection.2.1 c2nd []
      [Content.video (.str "m".toList) (some "i0") 0]
      (.str "m".toList) (some "i0") 0 rfl (by simp)

end Npp
